import Mathlib

/-!
Ownership of file handles and of reference-counted objects.

A verification development over `src/cpp/5_memory/raii.cpp` (class `FileRAII`),
`src/cpp/5_memory/smart_pointers.cpp` (`main`),
`src/1_language_fundamentals/constexpr.cpp` (the `constexpr` functions),
`src/cpp/3_functions/variadic_functions.cpp` (`sum`, `product`),
`src/1_language_fundamentals/enum.cpp` (the operators of `Permissions`) and
`src/cpp/3_functions/inline_functions.cpp` (`cached_sin`).

Pointers are natural numbers, `0` being the null pointer.  Calls into the C
library are recorded in logs carried by the state: `opened` lists every handle
a successful `std::fopen` returned, `closed` lists every argument passed to
`std::fclose`, in call order.
-/

namespace Raii

/-- A `FILE*` value; `0` is the null pointer. -/
abbrev FilePtr := Nat

/-- The null pointer constant. -/
abbrev nullptr : FilePtr := 0

/-- The class `FileRAII` of raii.cpp: its only data member is `FILE* file_`. -/
structure FileRAII where
  file_ : FilePtr
deriving DecidableEq, Repr

/-- Ways an operation can fail to complete: a C++ exception carrying its
`what()` text, or an ill-formed use (an operation on storage that holds no
live object, or construction into storage that already holds one). -/
inductive Fault where
  | exception (what : String)
  | illFormed
deriving DecidableEq, Repr

/-- Program state: the live `FileRAII` objects by address, and the logs of
`std::fopen` results and `std::fclose` arguments. -/
structure World where
  objs : Nat → Option FileRAII
  opened : List FilePtr
  closed : List FilePtr

/-- The state before any object exists. -/
def World.init : World := { objs := fun _ => none, opened := [], closed := [] }

/-- Accessor `FILE* get() const { return file_; }`. -/
def FileRAII.get (self : FileRAII) : FilePtr := self.file_

/-- Constructor `FileRAII(const char* filename, const char* mode)`:
`file_ = std::fopen(filename, mode); if (!file_) throw std::runtime_error(...)`.
The C library function is a parameter. -/
def FileRAII.ctor (fopen : String → String → FilePtr) (filename mode : String) :
    Except String FileRAII :=
  let file_ := fopen filename mode
  if file_ = nullptr then Except.error "Failed to open file" else Except.ok { file_ := file_ }

/-- Private member `close()`: `if (file_) { std::fclose(file_); file_ = nullptr; }`.
Takes and returns the log of `std::fclose` arguments. -/
def FileRAII.close (self : FileRAII) (closed : List FilePtr) : FileRAII × List FilePtr :=
  if self.file_ ≠ nullptr then ({ self with file_ := nullptr }, closed ++ [self.file_])
  else (self, closed)

/-- Move constructor `FileRAII(FileRAII&& other) noexcept : file_(other.file_)
{ other.file_ = nullptr; }`.  Returns the new object and the updated `other`. -/
def FileRAII.moveCtor (other : FileRAII) : FileRAII × FileRAII :=
  ({ file_ := other.file_ }, { other with file_ := nullptr })

/-- Body of the move assignment operator on two distinct objects:
`close(); file_ = other.file_; other.file_ = nullptr;`.
Returns the updated `*this`, the updated `other` and the `std::fclose` log. -/
def FileRAII.moveAssignBody (self other : FileRAII) (closed : List FilePtr) :
    FileRAII × FileRAII × List FilePtr :=
  let r := self.close closed
  ({ r.1 with file_ := other.file_ }, { other with file_ := nullptr }, r.2)

/-- Destructor `~FileRAII() { close(); }`: returns the `std::fclose` log. -/
def FileRAII.dtor (self : FileRAII) (closed : List FilePtr) : List FilePtr :=
  (self.close closed).2

/-- The value of `get()` on the object at `addr`, if one lives there. -/
def World.get (w : World) (addr : Nat) : Option FilePtr :=
  (w.objs addr).map FileRAII.get

/-- Statement `FileRAII f(filename, mode);` placing the object at `addr`, where
this call of `std::fopen` returns `ret`.  A throwing constructor creates no
object. -/
def World.construct (w : World) (addr : Nat) (filename mode : String) (ret : FilePtr) :
    Except Fault World :=
  match w.objs addr with
  | some _ => Except.error Fault.illFormed
  | none =>
    match FileRAII.ctor (fun _ _ => ret) filename mode with
    | Except.error what => Except.error (Fault.exception what)
    | Except.ok obj =>
      Except.ok { w with objs := Function.update w.objs addr (some obj),
                         opened := w.opened ++ [ret] }

/-- Statement `FileRAII b(std::move(a));` with `b` placed at `addr` and `a`
living at `other`. -/
def World.moveConstruct (w : World) (addr other : Nat) : Except Fault World :=
  match w.objs addr, w.objs other with
  | none, some o =>
    let r := FileRAII.moveCtor o
    Except.ok { w with objs := Function.update (Function.update w.objs addr (some r.1))
                                 other (some r.2) }
  | _, _ => Except.error Fault.illFormed

/-- Statement `b = std::move(a);` with `b` at `addr` and `a` at `other`:
`if (this != &other) { ... } return *this;`. -/
def World.moveAssign (w : World) (addr other : Nat) : Except Fault World :=
  match w.objs addr, w.objs other with
  | some self, some o =>
    if addr ≠ other then
      let r := FileRAII.moveAssignBody self o w.closed
      Except.ok { w with objs := Function.update (Function.update w.objs addr (some r.1))
                                   other (some r.2.1),
                         closed := r.2.2 }
    else Except.ok w
  | _, _ => Except.error Fault.illFormed

/-- End of the lifetime of the object at `addr`: its destructor runs and the
storage holds no object afterwards. -/
def World.destroy (w : World) (addr : Nat) : Except Fault World :=
  match w.objs addr with
  | some self =>
    Except.ok { w with objs := Function.update w.objs addr none,
                       closed := self.dtor w.closed }
  | none => Except.error Fault.illFormed

/-- The operations a program applies to `FileRAII` objects. -/
inductive Op where
  | construct (addr : Nat) (filename mode : String) (ret : FilePtr)
  | moveConstruct (addr other : Nat)
  | moveAssign (addr other : Nat)
  | destroy (addr : Nat)
deriving DecidableEq, Repr

/-- One operation. -/
def World.exec (w : World) : Op → Except Fault World
  | Op.construct addr filename mode ret => w.construct addr filename mode ret
  | Op.moveConstruct addr other => w.moveConstruct addr other
  | Op.moveAssign addr other => w.moveAssign addr other
  | Op.destroy addr => w.destroy addr

/-- A sequence of operations.  An exception leaves the state as it was and the
program goes on (as `main` does with its `try`/`catch`); an ill-formed
operation ends the run with no state. -/
def World.run (w : World) : List Op → Option World
  | [] => some w
  | op :: ops =>
    match w.exec op with
    | Except.ok w' => w'.run ops
    | Except.error (Fault.exception _) => w.run ops
    | Except.error Fault.illFormed => none

/-- Exclusive ownership: no two live objects hold the same non-null handle. -/
def World.Exclusive (w : World) : Prop :=
  ∀ a b oa ob, w.objs a = some oa → w.objs b = some ob →
    oa.file_ ≠ nullptr → oa.file_ = ob.file_ → a = b

/-- The environment's side of an operation: the handle a successful
`std::fopen` hands to a constructor is held by no live object. -/
def World.FreshFor (w : World) : Op → Prop
  | Op.construct _ _ _ ret => ret ≠ nullptr → ∀ a o, w.objs a = some o → o.file_ ≠ ret
  | _ => True

/-- The number of addresses of `live` whose object holds the handle `h`. -/
def World.holders (w : World) (live : List Nat) (h : FilePtr) : Nat :=
  live.countP (fun a => decide (w.get a = some h))

/-- Bookkeeping of handles against a duplicate-free list `live` that contains
the address of every live object: each non-null handle has been opened as
often as it has been closed plus the number of live objects that hold it. -/
def World.AccountedBy (w : World) (live : List Nat) : Prop :=
  live.Nodup ∧ (∀ a o, w.objs a = some o → a ∈ live) ∧
  ∀ h, h ≠ nullptr → w.opened.count h = w.closed.count h + w.holders live h

/-- Bookkeeping of handles: `std::fopen` never logged null, `std::fclose` was
never called on null, and the handles are accounted for by some list of
addresses. -/
def World.Accounted (w : World) : Prop :=
  nullptr ∉ w.opened ∧ nullptr ∉ w.closed ∧ ∃ live, w.AccountedBy live

/-- The operations of a run that opens two files, moves the first handle
through three objects, self-assigns, and destroys every object. -/
def demoOps : List Op :=
  [Op.construct 1 "example_from_raii_cpp.txt" "w" 7,
   Op.moveConstruct 2 1,
   Op.construct 3 "other.txt" "r" 5,
   Op.construct 4 "missing.txt" "r" nullptr,
   Op.moveAssign 3 2,
   Op.moveAssign 3 3,
   Op.destroy 1,
   Op.destroy 2,
   Op.destroy 3]

end Raii

namespace SmartPointers

/-- A raw pointer; `0` is the null pointer. -/
abbrev Ptr := Nat

/-- The null pointer constant. -/
abbrev nullptr : Ptr := 0

/-- The `struct Node { int value; ... }` of smart_pointers.cpp. -/
structure Node where
  value : Int
deriving DecidableEq, Repr

/-- Memory seen by constructors and destructors: the live `Node` objects by
address and the text written to `std::cout`, one entry per output statement. -/
structure Mem where
  objects : Nat → Option Node
  out : List String

/-- Constructor `Node(int v) : value(v) { std::cout << "Node " << value << " created\n"; }`
run on the storage at `p`. -/
def Node.ctor (m : Mem) (p : Ptr) (v : Int) : Mem :=
  { objects := Function.update m.objects p (some { value := v }),
    out := m.out ++ ["Node " ++ toString v ++ " created\n"] }

/-- Destructor `~Node() { std::cout << "Node " << value << " destroyed\n"; }` of
the object at `p`, whose storage holds no object afterwards. -/
def Node.dtor (m : Mem) (p : Ptr) : Mem :=
  match m.objects p with
  | some n =>
    { objects := Function.update m.objects p none,
      out := m.out ++ ["Node " ++ toString n.value ++ " destroyed\n"] }
  | none => m

/-- Modelled from the spec: the Deleter of §3, "a polymorphic capability
`{ invoke(rawPointer) }`"; the library that implements it
(`std::shared_ptr`, `std::weak_ptr`) is not among the sources.  Invoking it
acts on memory. -/
abbrev Deleter := Mem → Ptr → Mem

/-- Modelled from the spec: the ControlBlock of §3, with attributes
`strongCount`, `weakCount`, `managedPointer` and `deleter`; its
implementation is not among the sources. -/
structure ControlBlock where
  strongCount : Nat
  weakCount : Nat
  managedPointer : Ptr
  deleter : Deleter

/-- Modelled from the spec: the state the owners of §3 share, which no source
file implements: memory, the control blocks by address (`none` where no block
is allocated), and the log of the pointers on which an owner's stored deleter
has been invoked. -/
structure Heap where
  mem : Mem
  blocks : Nat → Option ControlBlock
  destroyed : List Ptr

/-- Modelled from the spec: the SharedOwner of §3, a reference to a control
block ("may be null only in a default/empty state") and a cached raw pointer;
its implementation is not among the sources. -/
structure SharedOwner where
  controlBlock : Option Nat
  rawPointer : Ptr
deriving DecidableEq, Repr

/-- Modelled from the spec: the WeakObserver of §3, a reference to a control
block that may be null; its implementation is not among the sources. -/
structure WeakObserver where
  controlBlock : Option Nat
deriving DecidableEq, Repr

/-- Modelled from the spec: the default/empty state of a SharedOwner (§3),
absent from the sources. -/
def SharedOwner.empty : SharedOwner := { controlBlock := none, rawPointer := nullptr }

/-- Modelled from the spec: `createWithDeleter(rawPointer, deleter)` of §4.2,
absent from the sources: "initializes strongCount=1, weakCount=0".  The
address `cb` of the new control block is the allocator's choice. -/
def createWithDeleter (h : Heap) (cb : Nat) (rawPointer : Ptr) (deleter : Deleter) :
    Heap × SharedOwner :=
  ({ h with blocks := Function.update h.blocks cb
              (some { strongCount := 1, weakCount := 0,
                      managedPointer := rawPointer, deleter := deleter }) },
   { controlBlock := some cb, rawPointer := rawPointer })

/-- Modelled from the spec: `copy()` of §4.2, absent from the sources:
"requires `strongCount > 0`; atomically increments it; result shares the same
ControlBlock".  No result where the requirement fails. -/
def SharedOwner.copy (s : SharedOwner) (h : Heap) : Option (Heap × SharedOwner) :=
  match s.controlBlock with
  | none => none
  | some cb =>
    match h.blocks cb with
    | none => none
    | some b =>
      if b.strongCount > 0 then
        some ({ h with blocks := Function.update h.blocks cb
                         (some { b with strongCount := b.strongCount + 1 }) }, s)
      else none

/-- Modelled from the spec: `reset()`/destructor of §4.2, absent from the
sources: "atomically decrements `strongCount`; if it reaches 0, invoke the
deleter on the managed object exactly once; then, if `weakCount` is also 0,
release the ControlBlock's own storage".  The owner is empty afterwards; an
empty owner has nothing to decrement. -/
def SharedOwner.reset (s : SharedOwner) (h : Heap) : Heap × SharedOwner :=
  match s.controlBlock with
  | none => (h, SharedOwner.empty)
  | some cb =>
    match h.blocks cb with
    | none => (h, SharedOwner.empty)
    | some b =>
      if b.strongCount - 1 = 0 then
        ({ mem := b.deleter h.mem b.managedPointer,
           blocks := if b.weakCount = 0 then Function.update h.blocks cb none
                     else Function.update h.blocks cb (some { b with strongCount := 0 }),
           destroyed := h.destroyed ++ [b.managedPointer] }, SharedOwner.empty)
      else
        ({ h with blocks := Function.update h.blocks cb
                    (some { b with strongCount := b.strongCount - 1 }) }, SharedOwner.empty)

/-- Modelled from the spec: `useCount()` of §4.2, absent from the sources:
"returns current `strongCount`"; `0` for an owner without control block. -/
def SharedOwner.useCount (s : SharedOwner) (h : Heap) : Nat :=
  match s.controlBlock with
  | none => 0
  | some cb =>
    match h.blocks cb with
    | none => 0
    | some b => b.strongCount

/-- Modelled from the spec: `construct(from: SharedOwner<T>)` of §4.3, absent
from the sources: "shares the same ControlBlock; increments `weakCount`". -/
def WeakObserver.construct (src : SharedOwner) (h : Heap) : Heap × WeakObserver :=
  match src.controlBlock with
  | none => (h, { controlBlock := none })
  | some cb =>
    match h.blocks cb with
    | none => (h, { controlBlock := none })
    | some b =>
      ({ h with blocks := Function.update h.blocks cb
                  (some { b with weakCount := b.weakCount + 1 }) },
       { controlBlock := some cb })

/-- Modelled from the spec: `lock()` of §4.3, absent from the sources: "if
`strongCount > 0` at the moment of the check, increment it and return a
populated SharedOwner; otherwise return an empty result". -/
def WeakObserver.lock (w : WeakObserver) (h : Heap) : Heap × SharedOwner :=
  match w.controlBlock with
  | none => (h, SharedOwner.empty)
  | some cb =>
    match h.blocks cb with
    | none => (h, SharedOwner.empty)
    | some b =>
      if b.strongCount > 0 then
        ({ h with blocks := Function.update h.blocks cb
                    (some { b with strongCount := b.strongCount + 1 }) },
         { controlBlock := some cb, rawPointer := b.managedPointer })
      else (h, SharedOwner.empty)

/-- Whether an owner is populated: it refers to a control block. -/
def SharedOwner.populated (s : SharedOwner) : Bool := s.controlBlock.isSome

/-- The call `std::make_shared<Node>(v)`: the `Node` is constructed at `p` and
handed to a new control block at `cb` whose deleter runs `~Node`; `cb` and `p`
are the allocator's choice. -/
def makeShared (h : Heap) (cb : Nat) (p : Ptr) (v : Int) : Heap × SharedOwner :=
  createWithDeleter { h with mem := Node.ctor h.mem p v } cb p Node.dtor

/-- A group of `n + 1` owners of one object: one `createWithDeleter` followed by
`n` copies of the first owner. -/
def makeGroup (h : Heap) (cb : Nat) (p : Ptr) (d : Deleter) : Nat → Heap × List SharedOwner
  | 0 => ((createWithDeleter h cb p d).1, [(createWithDeleter h cb p d).2])
  | n + 1 =>
    let g := makeGroup h cb p d n
    match (g.2.headD SharedOwner.empty).copy g.1 with
    | some r => (r.1, g.2 ++ [r.2])
    | none => g

/-- Owner number `i` of a list of owners is dropped or reset. -/
def dropAt (g : Heap × List SharedOwner) (i : Nat) : Heap × List SharedOwner :=
  match g.2.get? i with
  | some s => ((s.reset g.1).1, g.2.set i (s.reset g.1).2)
  | none => g

/-- The owners numbered by `order` are dropped or reset, in that order. -/
def dropAll (g : Heap × List SharedOwner) (order : List Nat) : Heap × List SharedOwner :=
  order.foldl dropAt g

/-- A number of weak observers are constructed from the owner `s`. -/
def observe (s : SharedOwner) (h : Heap) : Nat → Heap × List WeakObserver
  | 0 => (h, [])
  | k + 1 =>
    let r := observe s h k
    ((WeakObserver.construct s r.1).1, r.2 ++ [(WeakObserver.construct s r.1).2])

/-- Modelled from the spec: `get()` of §4.2, absent from the sources: "returns
raw pointer". -/
def SharedOwner.get (s : SharedOwner) : Ptr := s.rawPointer

/-- The locals `sp1`, `sp2`, `nodes` and `wp` of `main`, with the heap.  A
local that is not declared yet is empty. -/
structure Frame where
  heap : Heap
  sp1 : SharedOwner
  sp2 : SharedOwner
  nodes : List SharedOwner
  wp : WeakObserver

/-- An output statement `std::cout << ...;` writing `text`. -/
def Frame.print (f : Frame) (text : String) : Frame :=
  { f with heap := { f.heap with mem := { f.heap.mem with out := f.heap.mem.out ++ [text] } } }

/-- The state in which line 42 of `main` starts, as far as lines 42 to 72 can
tell: they use none of the objects of lines 13 to 40. -/
def Frame.start : Frame :=
  { heap := { mem := { objects := fun _ => none, out := [] },
              blocks := fun _ => none, destroyed := [] },
    sp1 := SharedOwner.empty, sp2 := SharedOwner.empty, nodes := [],
    wp := { controlBlock := none } }

/-- An expression `(wp.lock() ? "yes" : "no")` printed after `label`: the
temporary owner converts to `true` when its `get()` is not null, and is
destroyed at the end of the statement. -/
def Frame.printLock (f : Frame) (label : String) : Frame :=
  let r := f.wp.lock f.heap
  let g := Frame.print { f with heap := r.1 }
    (label ++ (if r.2.get ≠ nullptr then "yes" else "no") ++ "\n")
  { g with heap := (r.2.reset g.heap).1 }

/-- Lines 42 to 72 of `main` in smart_pointers.cpp, each statement with its
line number.  The allocator places the control block of `Node` 3, 4, 5 at
address 3, 4, 5 and the `Node` itself at 103, 104, 105. -/
def mainLines : List (Nat × (Frame → Option Frame)) :=
  [(42, fun f => some (f.print "\n=== std::shared_ptr ===\n")),
   (44, fun f => some { f with heap := (makeShared f.heap 3 103 3).1,
                               sp1 := (makeShared f.heap 3 103 3).2 }),
   (45, fun f => (f.sp1.copy f.heap).map fun r => { f with heap := r.1, sp2 := r.2 }),
   (47, fun f => some (f.print ("Use count: " ++ toString (f.sp1.useCount f.heap) ++ "\n"))),
   (49, fun f => some { f with heap := (f.sp2.reset f.heap).1, sp2 := (f.sp2.reset f.heap).2 }),
   (50, fun f => some (f.print
          ("Use count after reset: " ++ toString (f.sp1.useCount f.heap) ++ "\n"))),
   (63, fun f => some { f with heap := (makeShared f.heap 4 104 4).1,
                               nodes := f.nodes ++ [(makeShared f.heap 4 104 4).2] }),
   (64, fun f => some { f with heap := (makeShared f.heap 5 105 5).1,
                               nodes := f.nodes ++ [(makeShared f.heap 5 105 5).2] }),
   (66, fun f => some (f.print "\n=== std::weak_ptr ===\n")),
   (68, fun f => some { f with heap := (WeakObserver.construct f.sp1 f.heap).1,
                               wp := (WeakObserver.construct f.sp1 f.heap).2 }),
   (69, fun f => some (f.printLock "Weak lock success? ")),
   (71, fun f => some { f with heap := (f.sp1.reset f.heap).1, sp1 := (f.sp1.reset f.heap).2 }),
   (72, fun f => some (f.printLock "After sp1 reset, weak lock success? "))]

/-- Statements run one after the other. -/
def runLines (f : Frame) : List (Nat × (Frame → Option Frame)) → Option Frame
  | [] => some f
  | l :: ls =>
    match l.2 f with
    | some f' => runLines f' ls
    | none => none

/-- The state of `main` after the statement on line `line` (and every
statement of `mainLines` before it). -/
def mainThrough (line : Nat) : Option Frame :=
  runLines Frame.start (mainLines.filter fun l => decide (l.1 ≤ line))

/-- Modelled from the spec: the ExclusiveOwner of §3, with attributes
`rawPointer` (nullable) and `deleter`; the library that implements it
(`std::unique_ptr`) is not among the sources. -/
structure ExclusiveOwner where
  rawPointer : Ptr
  deleter : Deleter

/-- Modelled from the spec: `construct(rawPointer, deleter = default)` of §4.1,
absent from the sources: "takes ownership; fails nothing". -/
def ExclusiveOwner.construct (rawPointer : Ptr) (deleter : Deleter) : ExclusiveOwner :=
  { rawPointer := rawPointer, deleter := deleter }

/-- Modelled from the spec: `get()` of §4.1, absent from the sources: "returns
the raw pointer without transferring ownership; never destroys". -/
def ExclusiveOwner.get (e : ExclusiveOwner) : Ptr := e.rawPointer

/-- Modelled from the spec: `release()` of §4.1, absent from the sources:
"returns the raw pointer, clears internal state to 'owns nothing'".  Returns
the heap, the pointer handed to the caller, and the owner afterwards. -/
def ExclusiveOwner.release (e : ExclusiveOwner) (h : Heap) : Heap × Ptr × ExclusiveOwner :=
  (h, e.rawPointer, { e with rawPointer := nullptr })

/-- Modelled from the spec: `reset(newPointer = none)` of §4.1, absent from the
sources: "destroys the currently owned object (if any) using the stored
deleter, then takes ownership of `newPointer` (or none)". -/
def ExclusiveOwner.reset (e : ExclusiveOwner) (newPointer : Ptr) (h : Heap) :
    Heap × ExclusiveOwner :=
  if e.rawPointer ≠ nullptr then
    ({ h with mem := e.deleter h.mem e.rawPointer,
              destroyed := h.destroyed ++ [e.rawPointer] },
     { e with rawPointer := newPointer })
  else (h, { e with rawPointer := newPointer })

/-- Modelled from the spec: destruction of an ExclusiveOwner (§3), absent from
the sources: "destroyed invokes `deleter(rawPointer)` if non-null". -/
def ExclusiveOwner.destroy (e : ExclusiveOwner) (h : Heap) : Heap :=
  if e.rawPointer ≠ nullptr then
    { h with mem := e.deleter h.mem e.rawPointer,
             destroyed := h.destroyed ++ [e.rawPointer] }
  else h

/-- Modelled from the spec: move construction of an ExclusiveOwner (§3), absent
from the sources: "move transfers `rawPointer`/`deleter` and nulls the
source".  Returns the new owner and the source afterwards. -/
def ExclusiveOwner.move (e : ExclusiveOwner) : ExclusiveOwner × ExclusiveOwner :=
  ({ rawPointer := e.rawPointer, deleter := e.deleter }, { e with rawPointer := nullptr })

/-- Modelled from the spec: destruction of a WeakObserver (§4.3), absent from
the sources: "decrements `weakCount`; if it and `strongCount` are both 0,
releases the ControlBlock's own storage". -/
def WeakObserver.drop (w : WeakObserver) (h : Heap) : Heap :=
  match w.controlBlock with
  | none => h
  | some cb =>
    match h.blocks cb with
    | none => h
    | some b =>
      if b.weakCount - 1 = 0 ∧ b.strongCount = 0 then
        { h with blocks := Function.update h.blocks cb none }
      else
        { h with blocks := Function.update h.blocks cb
                    (some { b with weakCount := b.weakCount - 1 }) }

/-- The lambda of lines 36 to 39 of smart_pointers.cpp, the deleter of
`up_custom`: `std::cout << "Custom deleting Node " << p->value << "\n"; delete p;`. -/
def customDeleter : Deleter := fun m p =>
  match m.objects p with
  | some n =>
    Node.dtor { m with out := m.out ++ ["Custom deleting Node " ++ toString n.value ++ "\n"] } p
  | none => m

/-- The body of the loop of lines 86 to 92 for the entry `(k, wptr)`:
`if (auto sp = wptr.lock()) { ... << sp->value ... } else { ... expired ... }`;
`sp` is destroyed at the end of the statement.  No result when `sp->value`
reads an address that holds no `Node`. -/
def cacheLookup (h : Heap) (k : Int) (wptr : WeakObserver) : Option Heap :=
  let r := wptr.lock h
  if r.2.get ≠ nullptr then
    match r.1.mem.objects r.2.get with
    | some n =>
      some (r.2.reset
        { r.1 with mem := { r.1.mem with out := r.1.mem.out ++
            ["Cache node " ++ toString k ++ " alive: " ++ toString n.value ++ "\n"] } }).1
    | none => none
  else
    some (r.2.reset
      { r.1 with mem := { r.1.mem with out := r.1.mem.out ++
          ["Cache node " ++ toString k ++ " expired\n"] } }).1

/-- The loop `for (auto& [k, wptr] : cache)` over the entries in the order
`entries`. -/
def cacheLoop (h : Heap) : List (Int × WeakObserver) → Option Heap
  | [] => some h
  | e :: es =>
    match cacheLookup h e.1 e.2 with
    | some h' => cacheLoop h' es
    | none => none

/-- The new-expression `new Node(v)`, the allocator placing the object at `p`. -/
def newNode (h : Heap) (p : Ptr) (v : Int) : Heap :=
  { h with mem := Node.ctor h.mem p v }

/-- The delete-expression `delete p` on a `Node*`: the destructor runs and the
storage is given back.  It is also what the default deleter of
`std::unique_ptr<Node>` does. -/
def deleteNode (h : Heap) (p : Ptr) : Heap :=
  { h with mem := Node.dtor h.mem p }

/-- All locals of `main`: those of lines 42 to 72 with the heap (`shared`), and
`up1`, `up2`, `raw`, `up_custom` and `cache`.  A local that is not declared yet
is null or empty. -/
structure MainFrame where
  shared : Frame
  up1 : ExclusiveOwner
  up2 : ExclusiveOwner
  raw : Ptr
  up_custom : ExclusiveOwner
  cache : List (Int × WeakObserver)

/-- The heap of a frame. -/
def MainFrame.heap (f : MainFrame) : Heap := f.shared.heap

/-- A frame with its heap replaced. -/
def MainFrame.setHeap (f : MainFrame) (h : Heap) : MainFrame :=
  { f with shared := { f.shared with heap := h } }

/-- An output statement `std::cout << ...;` writing `text`. -/
def MainFrame.print (f : MainFrame) (text : String) : MainFrame :=
  { f with shared := f.shared.print text }

/-- A statement of lines 42 to 72 run on the full frame. -/
def MainFrame.lift (step : Frame → Option Frame) (f : MainFrame) : Option MainFrame :=
  (step f.shared).map fun g => { f with shared := g }

/-- The state in which `main` starts. -/
def MainFrame.start : MainFrame :=
  { shared := Frame.start,
    up1 := { rawPointer := nullptr, deleter := Node.dtor },
    up2 := { rawPointer := nullptr, deleter := Node.dtor },
    raw := nullptr,
    up_custom := { rawPointer := nullptr, deleter := customDeleter },
    cache := [] }

/-- The whole of `main` in smart_pointers.cpp, each statement with its line
number; the destructors of the locals, which run in reverse order of
declaration when `main` returns, carry the number 114 of its closing brace.
Lines 42 to 72 are `mainLines`.  The allocator places `Node` 1, 2, 42 at
address 101, 102, 142.  The order in which a `std::unordered_map` is traversed
is not specified: with `reversed` the loop of line 86 visits the two cache
entries in the order opposite to their insertion. -/
def fullMainLines (reversed : Bool) : List (Nat × (MainFrame → Option MainFrame)) :=
  [(13, fun f => some (f.print "\n=== std::unique_ptr ===\n")),
   (16, fun f => some { f.setHeap (newNode f.heap 101 1) with
                          up1 := ExclusiveOwner.construct 101 Node.dtor }),
   (19, fun f => some { f with up2 := f.up1.move.1, up1 := f.up1.move.2 }),
   (20, fun f => some (if f.up1.get = nullptr then f.print "up1 is now null\n" else f)),
   (23, fun f => some { f.setHeap (f.up2.reset 102 (newNode f.heap 102 2)).1 with
                          up2 := (f.up2.reset 102 (newNode f.heap 102 2)).2 }),
   (26, fun f => some { f.setHeap (f.up2.release f.heap).1 with
                          raw := (f.up2.release f.heap).2.1,
                          up2 := (f.up2.release f.heap).2.2 }),
   (27, fun f => some (f.setHeap (deleteNode f.heap f.raw))),
   (35, fun f => some { f.setHeap (newNode f.heap 142 42) with
                          up_custom := ExclusiveOwner.construct 142 customDeleter })]
  ++ mainLines.map (fun l => (l.1, MainFrame.lift l.2))
  ++ [(82, fun f => (f.shared.nodes.get? 0).map fun s =>
              { f.setHeap (WeakObserver.construct s f.heap).1 with
                  cache := f.cache ++ [(1, (WeakObserver.construct s f.heap).2)] }),
      (83, fun f => (f.shared.nodes.get? 1).map fun s =>
              { f.setHeap (WeakObserver.construct s f.heap).1 with
                  cache := f.cache ++ [(2, (WeakObserver.construct s f.heap).2)] }),
      (86, fun f => (cacheLoop f.heap (if reversed then f.cache.reverse else f.cache)).map
              f.setHeap),
      (114, fun f => some (f.setHeap (f.cache.foldl (fun h e => e.2.drop h) f.heap))),
      (114, fun f => some (f.setHeap (f.shared.wp.drop f.heap))),
      (114, fun f => some (f.setHeap (f.shared.nodes.foldl (fun h s => (s.reset h).1) f.heap))),
      (114, fun f => some (f.setHeap (f.shared.sp2.reset f.heap).1)),
      (114, fun f => some (f.setHeap (f.shared.sp1.reset f.heap).1)),
      (114, fun f => some (f.setHeap (f.up_custom.destroy f.heap))),
      (114, fun f => some (f.setHeap (f.up2.destroy f.heap))),
      (114, fun f => some (f.setHeap (f.up1.destroy f.heap)))]

/-- Statements of the full frame run one after the other. -/
def runFullLines (f : MainFrame) : List (Nat × (MainFrame → Option MainFrame)) →
    Option MainFrame
  | [] => some f
  | l :: ls =>
    match l.2 f with
    | some f' => runFullLines f' ls
    | none => none

/-- The state of `main` after every statement up to and including line `line`;
line 113 is the `return`, before any destructor, and line 114 the end. -/
def fullMainThrough (reversed : Bool) (line : Nat) : Option MainFrame :=
  runFullLines MainFrame.start ((fullMainLines reversed).filter fun l => decide (l.1 ≤ line))

end SmartPointers

namespace Constexpr

/-- The largest value of `int` (32 bits, two's complement). -/
def INT_MAX : Int := 2147483647

/-- The smallest value of `int`. -/
def INT_MIN : Int := -2147483648

/-- The value of type `int` that an `int` operation yields when its
mathematical result is `x`: the representative of `x` modulo 2^32 between
`INT_MIN` and `INT_MAX`. -/
def wrapInt (x : Int) : Int := (x + 2147483648) % 4294967296 - 2147483648

/-- The value of type `unsigned int` that an `unsigned int` operation yields
when its mathematical result is `x`. -/
def wrapUnsigned (x : Int) : Int := x % 4294967296

/-- Function `factorial_recursive` of constexpr.cpp:
`return (n <= 1) ? 1 : n * factorial_recursive(n-1);`.  The first argument
bounds the depth of the recursion; no result when it is used up. -/
def factorial_recursive : Nat → Int → Option Int
  | 0, _ => none
  | fuel + 1, n =>
    if n ≤ 1 then some 1
    else (factorial_recursive fuel (wrapInt (n - 1))).map fun r => wrapInt (n * r)

/-- The loop `for (int i = 2; i<=n ; ++i) result *= i;` of `factorial_iter`,
from the state `i`, `result`.  The first argument bounds the number of times
the condition is tested; no result when it is used up. -/
def factorial_iter_loop : Nat → Int → Int → Int → Option Int
  | 0, _, _, _ => none
  | fuel + 1, n, i, result =>
    if i ≤ n then factorial_iter_loop fuel n (wrapInt (i + 1)) (wrapInt (result * i))
    else some result

/-- Function `factorial_iter` of constexpr.cpp: `int result = 1;`, the loop
from `i = 2`, `return result;`. -/
def factorial_iter (fuel : Nat) (n : Int) : Option Int :=
  factorial_iter_loop fuel n 2 1

/-- The `struct Vec2 { int x, y; ... }` of constexpr.cpp. -/
structure Vec2 where
  x : Int
  y : Int
deriving DecidableEq, Repr

/-- Member `int dot(const Vec2& o) const { return x * o.x + y * o.y;}`. -/
def Vec2.dot (self o : Vec2) : Int :=
  wrapInt (wrapInt (self.x * o.x) + wrapInt (self.y * o.y))

/-- The types at which constexpr.cpp instantiates `id_or_abs`: `int` (for
`-7`) and `unsigned int` (for `9u`). -/
inductive IntegerType where
  | int
  | unsigned_int
deriving DecidableEq, Repr

/-- The trait `std::is_signed_v<T>`. -/
def is_signed_v : IntegerType → Bool
  | IntegerType.int => true
  | IntegerType.unsigned_int => false

/-- The values of a type. -/
def IntegerType.Holds : IntegerType → Int → Prop
  | IntegerType.int, v => INT_MIN ≤ v ∧ v ≤ INT_MAX
  | IntegerType.unsigned_int, v => 0 ≤ v ∧ v < 4294967296

/-- The value of type `T` an operation of `T` yields for the mathematical
result `x`. -/
def IntegerType.wrap : IntegerType → Int → Int
  | IntegerType.int, x => wrapInt x
  | IntegerType.unsigned_int, x => wrapUnsigned x

/-- Function template `id_or_abs` of constexpr.cpp:
`if constexpr (std::is_signed_v<T>) return (v < 0) ? -v : v; else return v;`. -/
def id_or_abs (T : IntegerType) (v : Int) : Int :=
  if is_signed_v T then (if v < 0 then T.wrap (-v) else v) else v

end Constexpr

namespace Variadic

open Constexpr

/-- Function template `sum` of variadic_functions.cpp, called with `int`
arguments: `return (args + ...);`.  With the pack on the left of the
operator this is the fold `a1 + (a2 + (... + an))`; it does not compile for an
empty pack, for which there is no result. -/
def sum : List Int → Option Int
  | [] => none
  | [a] => some a
  | a :: b :: rest => (sum (b :: rest)).map fun r => wrapInt (a + r)

/-- The fold `((a1 + a2) + a3) + ... + an` in `int` arithmetic, as a claim about
`sum` words it: the left fold over `+` of a non-empty list of arguments. -/
def leftFoldSum : List Int → Option Int
  | [] => none
  | a :: rest => some (rest.foldl (fun acc x => wrapInt (acc + x)) a)

/-- Function template `product` of variadic_functions.cpp, called with `int`
arguments: `return (args * ... * 1);`, the fold
`a1 * (a2 * (... * (an * 1)))`, which is `1` for the empty pack. -/
def product : List Int → Int
  | [] => 1
  | a :: rest => wrapInt (a * product rest)

end Variadic

namespace EnumOperations

/-- The `enum class Permissions : uint8_t` of enum.cpp.  A value of the
enumeration is a value of its underlying type, kept as `value`. -/
structure Permissions where
  value : Nat
deriving DecidableEq, Repr

/-- The values the underlying type `uint8_t` has. -/
def Permissions.Valid (a : Permissions) : Prop := a.value < 256

/-- Enumerator `READ = 0b0001`. -/
def Permissions.READ : Permissions := { value := 0b0001 }

/-- Enumerator `WRITE = 0b0010`. -/
def Permissions.WRITE : Permissions := { value := 0b0010 }

/-- Enumerator `EXECUTE = 0b0100`. -/
def Permissions.EXECUTE : Permissions := { value := 0b0100 }

/-- Enumerator `ALL = READ | WRITE | EXECUTE`. -/
def Permissions.ALL : Permissions := { value := 0b0001 ||| 0b0010 ||| 0b0100 }

/-- The conversion `static_cast<Permissions>(v)` of an `int` value `v`: `v` is
converted to the underlying type, that is, taken modulo 256. -/
def toPermissions (v : Int) : Permissions := { value := (v % 256).toNat }

/-- The conversion `static_cast<uint8_t>(a)`, promoted to `int` as an operand
of `|`, `&` or `~`. -/
def toUnderlying (a : Permissions) : Int := (a.value : Int)

/-- `Permissions operator|(Permissions a, Permissions b)`:
`static_cast<Permissions>(static_cast<uint8_t>(a) | static_cast<uint8_t>(b))`.
Both operands of the `int` operator `|` are values of `uint8_t`. -/
def operatorOr (a b : Permissions) : Permissions :=
  toPermissions ((a.value ||| b.value : Nat) : Int)

/-- `Permissions operator&(Permissions a, Permissions b)`:
`static_cast<Permissions>(static_cast<uint8_t>(a) & static_cast<uint8_t>(b))`. -/
def operatorAnd (a b : Permissions) : Permissions :=
  toPermissions ((a.value &&& b.value : Nat) : Int)

/-- `Permissions operator~(Permissions a)`:
`static_cast<Permissions>(~static_cast<uint8_t>(a))`.  The operand is promoted
to `int`, whose complement is negative. -/
def operatorNot (a : Permissions) : Permissions :=
  toPermissions (Int.not (toUnderlying a))

/-- Lines 169 to 174 of `demonstrateOperations`: the text written for
`userPerms = Permissions::READ | Permissions::WRITE`. -/
def demonstrateOperations : List String :=
  let userPerms := operatorOr Permissions.READ Permissions.WRITE
  ["User permissions: " ++ toString userPerms.value ++ "\n"] ++
    (if operatorAnd userPerms Permissions.WRITE = Permissions.WRITE then
      ["User has write permission\n"]
     else [])

end EnumOperations

namespace InlineFunctions

/-- A value of type `double` (IEEE 754 binary64) by its three fields: the sign
bit, the biased exponent (11 bits) and the fraction (52 bits). -/
structure Double where
  sign : Bool
  exponent : Nat
  fraction : Nat
deriving DecidableEq, Repr

/-- A NaN: the exponent is all ones and the fraction is not zero. -/
def Double.isNaN (d : Double) : Bool := d.exponent == 2047 && d.fraction != 0

/-- A zero, of either sign: exponent and fraction are zero. -/
def Double.isZero (d : Double) : Bool := d.exponent == 0 && d.fraction == 0

/-- The comparison `x == y` of two `double` values: false when either is a
NaN, true for two zeros of any signs, and otherwise true exactly when the two
have the same fields. -/
def Double.eq (x y : Double) : Bool :=
  !x.isNaN && !y.isNaN && ((x.isZero && y.isZero) || decide (x = y))

/-- The literal `0.0`. -/
def Double.zero : Double := { sign := false, exponent := 0, fraction := 0 }

/-- The value `-0.0`. -/
def Double.negZero : Double := { sign := true, exponent := 0, fraction := 0 }

/-- The literal `1.57`, whose bits are `0x3FF91EB851EB851F`. -/
def Double.lit_1_57 : Double :=
  { sign := false, exponent := 1023, fraction := 2567051787601183 }

/-- The two `static` locals of `cached_sin`. -/
structure Statics where
  last_x : Double
  last_val : Double
deriving DecidableEq, Repr

/-- The initial values `static double last_x = 0.0; static double last_val = 0.0;`. -/
def Statics.init : Statics := { last_x := Double.zero, last_val := Double.zero }

/-- Function `cached_sin` of inline_functions.cpp:
`if (x == last_x) return last_val; last_x = x; return last_val = std::sin(x);`.
The library function `std::sin` is a parameter.  Returns the value and the
statics after the call. -/
def cached_sin (sin : Double → Double) (s : Statics) (x : Double) : Double × Statics :=
  if Double.eq x s.last_x then (s.last_val, s)
  else (sin x, { last_x := x, last_val := sin x })

/-- A sequence of calls of `cached_sin`, one for each argument of the list:
the values returned, in order, and the statics at the end. -/
def calls (sin : Double → Double) : Statics → List Double → List Double × Statics
  | s, [] => ([], s)
  | s, x :: xs =>
    ((cached_sin sin s x).1 :: (calls sin (cached_sin sin s x).2 xs).1,
     (calls sin (cached_sin sin s x).2 xs).2)

end InlineFunctions

namespace Raii

/-! ## Shapes of the successful operations -/

/-- A construction that completes found free storage and a non-null handle. -/
theorem construct_ok {w w' : World} {a : Nat} {f m : String} {ret : FilePtr}
    (h : w.construct a f m ret = Except.ok w') :
    w.objs a = none ∧ ret ≠ nullptr ∧
    w' = { objs := Function.update w.objs a (some { file_ := ret }),
           opened := w.opened ++ [ret], closed := w.closed } := by
  unfold World.construct at h
  cases ha : w.objs a with
  | some o => simp [ha] at h
  | none =>
    by_cases h0 : ret = 0
    · simp [ha, FileRAII.ctor, h0] at h
    · simp only [ha, FileRAII.ctor, h0, if_false, Except.ok.injEq] at h
      exact ⟨rfl, h0, h.symm⟩

/-- A move construction that completes moved the handle of a live object into
free storage. -/
theorem moveConstruct_ok {w w' : World} {b a : Nat}
    (h : w.moveConstruct b a = Except.ok w') :
    ∃ o, w.objs b = none ∧ w.objs a = some o ∧ b ≠ a ∧
    w' = { objs := Function.update (Function.update w.objs b (some { file_ := o.file_ }))
                     a (some { file_ := nullptr }),
           opened := w.opened, closed := w.closed } := by
  unfold World.moveConstruct at h
  cases hb : w.objs b with
  | some o => simp [hb] at h
  | none =>
    cases ha : w.objs a with
    | none => simp [hb, ha] at h
    | some o =>
      simp only [hb, ha, Except.ok.injEq] at h
      refine ⟨o, rfl, rfl, ?_, h.symm⟩
      intro e; rw [e, ha] at hb; cases hb

/-- A move assignment that completes either was a self assignment, or closed
the target's handle and moved the source's handle over. -/
theorem moveAssign_ok {w w' : World} {b a : Nat}
    (h : w.moveAssign b a = Except.ok w') :
    ∃ ob oa, w.objs b = some ob ∧ w.objs a = some oa ∧
    ((b = a ∧ w' = w) ∨
     (b ≠ a ∧
      w' = { objs := Function.update (Function.update w.objs b (some { file_ := oa.file_ }))
                       a (some { file_ := nullptr }),
             opened := w.opened,
             closed := w.closed ++ (if ob.file_ ≠ nullptr then [ob.file_] else []) })) := by
  unfold World.moveAssign at h
  cases hb : w.objs b with
  | none => simp [hb] at h
  | some ob =>
    cases ha : w.objs a with
    | none => simp [hb, ha] at h
    | some oa =>
      refine ⟨ob, oa, rfl, rfl, ?_⟩
      by_cases e : b = a
      · left
        simp only [hb, ha, e, ne_eq, not_true_eq_false, if_false, Except.ok.injEq] at h
        exact ⟨e, h.symm⟩
      · right
        simp only [hb, ha, e, ne_eq, not_false_eq_true, if_true, Except.ok.injEq] at h
        refine ⟨e, ?_⟩
        rw [← h]
        by_cases h0 : ob.file_ = 0 <;> simp [FileRAII.moveAssignBody, FileRAII.close, h0]

/-- A destruction that completes closed the object's handle and removed the
object. -/
theorem destroy_ok {w w' : World} {a : Nat} (h : w.destroy a = Except.ok w') :
    ∃ o, w.objs a = some o ∧
    w' = { objs := Function.update w.objs a none, opened := w.opened,
           closed := w.closed ++ (if o.file_ ≠ nullptr then [o.file_] else []) } := by
  unfold World.destroy at h
  cases ha : w.objs a with
  | none => simp [ha] at h
  | some o =>
    simp only [ha, Except.ok.injEq] at h
    refine ⟨o, rfl, ?_⟩
    rw [← h]
    by_cases h0 : o.file_ = 0 <;> simp [FileRAII.dtor, FileRAII.close, h0]

/-! ## Preservation lemmas -/

/-- Occurrences of `h` after the release of `p` has been logged. -/
theorem count_release (l : List FilePtr) (p h : FilePtr) :
    (l ++ (if p ≠ nullptr then [p] else [])).count h =
      l.count h + (if p ≠ nullptr ∧ p = h then 1 else 0) := by
  by_cases h0 : p = 0
  · simp [h0]
  · by_cases e : p = h
    · subst e
      have h0' : ¬ p = nullptr := h0
      simp [h0']
    · have h0' : ¬ p = nullptr := h0
      simp [h0', e, List.count_singleton]

/-- Exclusive ownership survives a new object that holds a handle no other
object holds. -/
theorem exclusive_acquire {w : World} {a : Nat} {ret : FilePtr} (l1 l2 : List FilePtr)
    (hx : w.Exclusive)
    (hf : ∀ c o, w.objs c = some o → o.file_ ≠ ret) :
    World.Exclusive { objs := Function.update w.objs a (some { file_ := ret }),
                      opened := l1, closed := l2 } := by
  intro c d oc od h1 h2 h3 h4
  simp only [Function.update_apply] at h1 h2
  split_ifs at h1 h2 with e1 e2 e2
  · rw [e1, e2]
  · cases h1
    exact absurd h4.symm (hf d od h2)
  · cases h2
    exact absurd h4 (hf c oc h1)
  · exact hx c d oc od h1 h2 h3 h4

/-- Exclusive ownership survives the transfer of a handle from `a` to `b`. -/
theorem exclusive_transfer {w : World} {b a : Nat} {o : FileRAII} (l1 l2 : List FilePtr)
    (hx : w.Exclusive) (ha : w.objs a = some o) :
    World.Exclusive
      { objs := Function.update (Function.update w.objs b (some { file_ := o.file_ }))
                  a (some { file_ := nullptr }),
        opened := l1, closed := l2 } := by
  intro c d oc od h1 h2 h3 h4
  simp only [Function.update_apply] at h1 h2
  split_ifs at h1 h2 with e1 e2 e3 e4 e5 e6 e7
  · rw [e1, e2]
  · cases h1; exact absurd rfl h3
  · cases h1; exact absurd rfl h3
  · cases h2; cases h1; exact absurd h4 h3
  · rw [e4, e6]
  · cases h1
    exact absurd (hx a d o od ha h2 h3 h4) (Ne.symm e5)
  · cases h2; exact absurd h4 h3
  · cases h2
    exact absurd (hx c a oc o h1 ha h3 h4) e1
  · exact hx c d oc od h1 h2 h3 h4

/-- Exclusive ownership survives the removal of an object. -/
theorem exclusive_remove {w : World} {a : Nat} (l1 l2 : List FilePtr)
    (hx : w.Exclusive) :
    World.Exclusive { objs := Function.update w.objs a none, opened := l1, closed := l2 } := by
  intro c d oc od h1 h2 h3 h4
  simp only [Function.update_apply] at h1 h2
  split_ifs at h1 h2 with e1 e2
  exact hx c d oc od h1 h2 h3 h4

/-- Changing a predicate at one element of a duplicate-free list changes the
count by that element alone. -/
theorem countP_update {l : List Nat} (hl : l.Nodup) {a : Nat} (ha : a ∈ l)
    (p q : Nat → Bool) (hpq : ∀ c, c ≠ a → p c = q c) :
    l.countP q + (if p a then 1 else 0) = l.countP p + (if q a then 1 else 0) := by
  induction l with
  | nil => cases ha
  | cons x xs ih =>
    obtain ⟨hx, hxs⟩ := List.nodup_cons.mp hl
    simp only [List.countP_cons]
    by_cases e : x = a
    · subst e
      have hsame : xs.countP q = xs.countP p := by
        apply List.countP_congr
        intro c hc
        have hcx : c ≠ x := fun e => hx (e ▸ hc)
        rw [hpq c hcx]
      rw [hsame]
      omega
    · have hmem : a ∈ xs := by
        rcases List.mem_cons.mp ha with h | h
        · exact absurd h.symm e
        · exact h
      have := ih hxs hmem
      rw [hpq x e]
      omega

/-- Replacing the object at one address changes the number of holders of `h`
by that address alone. -/
theorem holders_update (w : World) {live : List Nat} (hl : live.Nodup) {a : Nat}
    (ha : a ∈ live) (x : Option FileRAII) (l1 l2 : List FilePtr) (h : FilePtr) :
    World.holders { objs := Function.update w.objs a x, opened := l1, closed := l2 } live h +
        (if w.get a = some h then 1 else 0) =
      w.holders live h + (if x.map FileRAII.get = some h then 1 else 0) := by
  have := countP_update hl ha (fun c => decide (w.get c = some h))
    (fun c => decide
      (World.get { objs := Function.update w.objs a x, opened := l1, closed := l2 } c = some h))
    (by
      intro c hc
      simp [World.get, Function.update_noteq hc])
  simpa [World.holders, World.get] using this

/-- The list of addresses of the bookkeeping can be made to contain any given
address. -/
theorem accountedBy_extend {w : World} {live : List Nat} (hacc : w.AccountedBy live)
    (a : Nat) : ∃ live', a ∈ live' ∧ (∀ c, c ∈ live → c ∈ live') ∧ w.AccountedBy live' := by
  by_cases ha : a ∈ live
  · exact ⟨live, ha, fun _ h => h, hacc⟩
  · obtain ⟨hnd, hcov, hcnt⟩ := hacc
    refine ⟨a :: live, List.mem_cons_self _ _, fun c hc => List.mem_cons_of_mem _ hc,
      List.nodup_cons.mpr ⟨ha, hnd⟩, fun c o hco => List.mem_cons_of_mem _ (hcov c o hco), ?_⟩
    intro h h0
    have hnone : w.objs a = none := by
      cases hoa : w.objs a with
      | none => rfl
      | some o => exact absurd (hcov a o hoa) ha
    have : w.holders (a :: live) h = w.holders live h := by
      simp [World.holders, World.get, hnone]
    rw [this]
    exact hcnt h h0

/-- Bookkeeping survives a construction. -/
theorem accounted_acquire {w : World} {a : Nat} {ret : FilePtr}
    (hacc : w.Accounted) (hnone : w.objs a = none) (h0 : ret ≠ nullptr) :
    World.Accounted { objs := Function.update w.objs a (some { file_ := ret }),
                      opened := w.opened ++ [ret], closed := w.closed } := by
  obtain ⟨ho, hc, live0, hacc0⟩ := hacc
  obtain ⟨live, ha, -, hnd, hcov, hcnt⟩ := accountedBy_extend hacc0 a
  refine ⟨?_, hc, live, hnd, ?_, ?_⟩
  · simp only [List.mem_append, List.mem_singleton, not_or]
    exact ⟨ho, Ne.symm h0⟩
  · intro c o hco
    by_cases e : c = a
    · rw [e]; exact ha
    · exact hcov c o (by simpa [Function.update_noteq e] using hco)
  · intro h hh
    have hu := holders_update w hnd ha (some { file_ := ret }) (w.opened ++ [ret]) w.closed h
    have hg : w.get a = none := by simp [World.get, hnone]
    have hcn := hcnt h hh
    simp only [hg, Option.map_some', FileRAII.get, Option.some.injEq, reduceCtorEq,
      if_false, add_zero] at hu
    simp only [List.count_append, List.count_singleton]
    by_cases e : ret = h
    · simp only [e, if_true, beq_self_eq_true] at hu ⊢
      omega
    · have hb : (ret == h) = false := by simpa using e
      simp only [e, if_false, hb] at hu ⊢
      simp only [Bool.false_eq_true, if_false, add_zero]
      omega

/-- Bookkeeping survives the transfer of a handle from `a` to `b`, with the
release of the handle `pb` that `b` held (null when `b` is new). -/
theorem accounted_transfer {w : World} {b a : Nat} {o : FileRAII} {pb : FilePtr}
    (hacc : w.Accounted) (ha : w.objs a = some o) (hne : b ≠ a)
    (hb : (w.objs b = none ∧ pb = nullptr) ∨ w.objs b = some { file_ := pb }) :
    World.Accounted
      { objs := Function.update (Function.update w.objs b (some { file_ := o.file_ }))
                  a (some { file_ := nullptr }),
        opened := w.opened,
        closed := w.closed ++ (if pb ≠ nullptr then [pb] else []) } := by
  obtain ⟨ho, hc, live0, hacc0⟩ := hacc
  obtain ⟨live, hbl, -, hnd, hcov, hcnt⟩ := accountedBy_extend hacc0 b
  have hal : a ∈ live := hcov a o ha
  refine ⟨ho, ?_, live, hnd, ?_, ?_⟩
  · by_cases hp : pb = nullptr
    · simpa [hp] using hc
    · simp only [ne_eq, hp, not_false_eq_true, if_true, List.mem_append, List.mem_singleton,
        not_or]
      exact ⟨hc, Ne.symm hp⟩
  · intro c oc hco
    by_cases ea : c = a
    · rw [ea]; exact hal
    · by_cases eb : c = b
      · rw [eb]; exact hbl
      · exact hcov c oc (by simpa [Function.update_noteq ea, Function.update_noteq eb] using hco)
  · intro h hh
    have hu1 := holders_update w hnd hbl (some { file_ := o.file_ }) w.opened w.closed h
    have hu2 := holders_update
      { objs := Function.update w.objs b (some { file_ := o.file_ }),
        opened := w.opened, closed := w.closed } hnd hal (some { file_ := nullptr })
      w.opened (w.closed ++ (if pb ≠ nullptr then [pb] else [])) h
    have hga :
        World.get
          { objs := Function.update w.objs b (some { file_ := o.file_ }),
            opened := w.opened, closed := w.closed } a = some o.file_ := by
      simp [World.get, Function.update_noteq (Ne.symm hne), ha, FileRAII.get]
    have hgb : (w.get b = some h) ↔ (pb ≠ nullptr ∧ pb = h) := by
      rcases hb with ⟨hn, hp⟩ | hs
      · simp [World.get, hn, hp]
      · simp only [World.get, hs, Option.map_some', FileRAII.get, Option.some.injEq]
        constructor
        · intro e; exact ⟨by rw [e]; exact hh, e⟩
        · intro e; exact e.2
    have hcn := hcnt h hh
    rw [count_release]
    simp only [hga, Option.map_some', FileRAII.get, Option.some.injEq] at hu1 hu2
    have hnh : ¬ (nullptr = h) := fun e => hh e.symm
    simp only [hnh, if_false, add_zero] at hu2
    simp only [hgb] at hu1
    by_cases e1 : o.file_ = h <;> by_cases e2 : (pb ≠ nullptr ∧ pb = h) <;>
      simp only [e1, e2, if_true, if_false] at hu1 hu2 ⊢ <;> omega

/-- Bookkeeping survives a destruction. -/
theorem accounted_remove {w : World} {a : Nat} {o : FileRAII}
    (hacc : w.Accounted) (ha : w.objs a = some o) :
    World.Accounted
      { objs := Function.update w.objs a none, opened := w.opened,
        closed := w.closed ++ (if o.file_ ≠ nullptr then [o.file_] else []) } := by
  obtain ⟨ho, hc, live, hnd, hcov, hcnt⟩ := hacc
  have hal : a ∈ live := hcov a o ha
  refine ⟨ho, ?_, live, hnd, ?_, ?_⟩
  · by_cases hp : o.file_ = nullptr
    · simpa [hp] using hc
    · simp only [ne_eq, hp, not_false_eq_true, if_true, List.mem_append, List.mem_singleton,
        not_or]
      exact ⟨hc, Ne.symm hp⟩
  · intro c oc hco
    by_cases ea : c = a
    · rw [ea]; exact hal
    · exact hcov c oc (by simpa [Function.update_noteq ea] using hco)
  · intro h hh
    have hu := holders_update w hnd hal none w.opened
      (w.closed ++ (if o.file_ ≠ nullptr then [o.file_] else [])) h
    have hcn := hcnt h hh
    rw [count_release]
    simp only [World.get, ha, Option.map_some', FileRAII.get, Option.some.injEq,
      Option.map_none', reduceCtorEq, if_false, add_zero] at hu
    have hind : (if o.file_ ≠ nullptr ∧ o.file_ = h then 1 else 0) =
        (if o.file_ = h then 1 else 0) := by
      by_cases e1 : o.file_ = h
      · have e2 : o.file_ ≠ nullptr ∧ o.file_ = h := ⟨by rw [e1]; exact hh, e1⟩
        rw [if_pos e1, if_pos e2]
      · have e2 : ¬ (o.file_ ≠ nullptr ∧ o.file_ = h) := fun e => e1 e.2
        rw [if_neg e1, if_neg e2]
    rw [hind]
    dsimp only
    by_cases e1 : o.file_ = h
    · rw [if_pos e1] at hu ⊢; omega
    · rw [if_neg e1] at hu ⊢; omega

/-- Exclusive ownership survives every operation that completes. -/
theorem exclusive_step {w w' : World} {op : Op} (hx : w.Exclusive) (hf : w.FreshFor op)
    (h : w.exec op = Except.ok w') : w'.Exclusive := by
  cases op with
  | construct a f m ret =>
    obtain ⟨_, h0, rfl⟩ := construct_ok h
    exact exclusive_acquire _ _ hx (hf h0)
  | moveConstruct b a =>
    obtain ⟨o, _, ha, _, rfl⟩ := moveConstruct_ok h
    exact exclusive_transfer _ _ hx ha
  | moveAssign b a =>
    obtain ⟨ob, oa, _, ha, ⟨_, rfl⟩ | ⟨_, rfl⟩⟩ := moveAssign_ok h
    · exact hx
    · exact exclusive_transfer _ _ hx ha
  | destroy a =>
    obtain ⟨o, _, rfl⟩ := destroy_ok h
    exact exclusive_remove _ _ hx

/-- Bookkeeping holds before any object exists. -/
theorem accounted_init : World.init.Accounted := by
  refine ⟨by simp [World.init], by simp [World.init], [], List.nodup_nil, ?_, ?_⟩
  · intro a o h; simp [World.init] at h
  · intro h _; simp [World.init, World.holders]

/-- Bookkeeping survives every operation that completes. -/
theorem accounted_step {w w' : World} {op : Op} (hacc : w.Accounted)
    (h : w.exec op = Except.ok w') : w'.Accounted := by
  cases op with
  | construct a f m ret =>
    obtain ⟨hn, h0, rfl⟩ := construct_ok h
    exact accounted_acquire hacc hn h0
  | moveConstruct b a =>
    obtain ⟨o, hb, ha, hne, rfl⟩ := moveConstruct_ok h
    have := @accounted_transfer w b a o nullptr hacc ha hne (Or.inl ⟨hb, rfl⟩)
    simpa using this
  | moveAssign b a =>
    obtain ⟨ob, oa, hb, ha, ⟨_, rfl⟩ | ⟨hne, rfl⟩⟩ := moveAssign_ok h
    · exact hacc
    · exact accounted_transfer hacc ha hne (Or.inr hb)
  | destroy a =>
    obtain ⟨o, ha, rfl⟩ := destroy_ok h
    exact accounted_remove hacc ha

/-- Bookkeeping survives every run. -/
theorem accounted_run (ops : List Op) : ∀ {w w' : World}, w.Accounted →
    w.run ops = some w' → w'.Accounted := by
  induction ops with
  | nil =>
    intro w w' hacc h
    simp only [World.run, Option.some.injEq] at h
    exact h ▸ hacc
  | cons op ops ih =>
    intro w w' hacc h
    simp only [World.run] at h
    cases hstep : w.exec op with
    | ok w1 =>
      rw [hstep] at h
      exact ih (accounted_step hacc hstep) h
    | error e =>
      rw [hstep] at h
      cases e with
      | exception what => exact ih hacc h
      | illFormed => cases h

/-! ## Theorems on `FileRAII` -/

/-- C1. Move construction `FileRAII b(std::move(a))`, for every object `a`
whose `get()` is `h` (null or not): afterwards `a.get()` is null, `b.get()` is
`h`, and `std::fclose` has not been called. -/
theorem moveConstruct_nulls_source (w : World) (b a : Nat) (h : FilePtr)
    (ha : w.get a = some h) (hb : w.objs b = none) :
    ∃ w', w.moveConstruct b a = Except.ok w' ∧
      w'.get a = some nullptr ∧ w'.get b = some h ∧ w'.closed = w.closed := by
  unfold World.get at ha
  cases hoa : w.objs a with
  | none => simp [hoa] at ha
  | some o =>
    have hab : b ≠ a := by
      intro e; rw [e, hoa] at hb; cases hb
    have hh : o.file_ = h := by simpa [hoa, FileRAII.get] using ha
    simp only [World.moveConstruct, hb, hoa]
    refine ⟨_, rfl, ?_, ?_, rfl⟩
    · simp [World.get, FileRAII.moveCtor, FileRAII.get]
    · simp [World.get, FileRAII.moveCtor, FileRAII.get, Function.update_noteq hab, hh]

/-- A null and a non-null source, moved into fresh storage. -/
theorem moveConstruct_nulls_source_witness :
    (∃ w', ({ objs := fun n => if n = 1 then some { file_ := 7 } else none,
              opened := [7], closed := [] } : World).moveConstruct 2 1 = Except.ok w' ∧
      w'.get 1 = some nullptr ∧ w'.get 2 = some 7 ∧ w'.closed = []) ∧
    (∃ w', ({ objs := fun n => if n = 1 then some { file_ := nullptr } else none,
              opened := [7], closed := [7] } : World).moveConstruct 2 1 = Except.ok w' ∧
      w'.get 1 = some nullptr ∧ w'.get 2 = some nullptr ∧ w'.closed = [7]) :=
  ⟨moveConstruct_nulls_source _ 2 1 7 (by simp [World.get, FileRAII.get]) (by simp),
   moveConstruct_nulls_source _ 2 1 nullptr (by simp [World.get, FileRAII.get]) (by simp)⟩

/-- C2. No double release.  After every finite sequence of constructions,
move constructions, move assignments and destructions, started with no object:
`std::fclose` has never been called on null; every handle has been passed to
`std::fclose` at most as often as a successful constructor obtained it, so at
most once when it was obtained once; and once every object has been destroyed,
exactly as often as it was obtained, so exactly once when it was obtained
once. -/
theorem no_double_release (ops : List Op) (w : World)
    (hrun : World.init.run ops = some w) :
    nullptr ∉ w.closed ∧
    (∀ h, w.closed.count h ≤ w.opened.count h) ∧
    (∀ h, w.opened.count h = 1 → w.closed.count h ≤ 1) ∧
    ((∀ a, w.objs a = none) → ∀ h, w.closed.count h = w.opened.count h) ∧
    ((∀ a, w.objs a = none) → ∀ h, w.opened.count h = 1 → w.closed.count h = 1) := by
  obtain ⟨ho, hc, live, hnd, hcov, hcnt⟩ := accounted_run ops accounted_init hrun
  have hle : ∀ h, w.closed.count h ≤ w.opened.count h := by
    intro h
    by_cases h0 : h = nullptr
    · rw [h0, List.count_eq_zero.mpr hc]
      exact Nat.zero_le _
    · have := hcnt h h0
      omega
  have heq : (∀ a, w.objs a = none) → ∀ h, w.closed.count h = w.opened.count h := by
    intro hall h
    by_cases h0 : h = nullptr
    · rw [h0, List.count_eq_zero.mpr hc, List.count_eq_zero.mpr ho]
    · have := hcnt h h0
      have hz : w.holders live h = 0 := by
        simp [World.holders, World.get, hall]
      omega
  refine ⟨hc, hle, ?_, heq, ?_⟩
  · intro h h1
    have := hle h
    omega
  · intro hall h h1
    have := heq hall h
    omega

/-- The run `demoOps`: handle `5` is closed by the move assignment, handle `7`
by the last destruction, each once. -/
theorem no_double_release_witness :
    ∃ w, World.init.run demoOps = some w ∧ w.opened = [7, 5] ∧ w.closed = [5, 7] ∧
      (∀ a, w.objs a = none) ∧
      (∀ h, w.opened.count h = 1 → w.closed.count h = 1) :=
  ⟨_, rfl, rfl, rfl,
    (by intro a; simp only [Function.update_apply, World.init]; split_ifs <;> rfl),
    (no_double_release demoOps _ rfl).2.2.2.2
      (by intro a; simp only [Function.update_apply, World.init]; split_ifs <;> rfl)⟩

/-- C3. Exclusive ownership (no two live objects hold the same non-null
handle) holds before any object exists and is preserved by every operation
that completes: construction, given that the handle `std::fopen` returned is
held by no live object, move construction, move assignment and destruction. -/
theorem exclusive_ownership_invariant :
    World.init.Exclusive ∧
    ∀ (w w' : World) (op : Op), w.Exclusive → w.FreshFor op →
      w.exec op = Except.ok w' → w'.Exclusive := by
  refine ⟨?_, fun w w' op hx hf h => exclusive_step hx hf h⟩
  intro a b oa ob h
  simp [World.init] at h

/-- Construction of a first object, holding handle `7`, keeps ownership
exclusive. -/
theorem exclusive_ownership_invariant_witness :
    ∃ w', World.init.exec (Op.construct 1 "example_from_raii_cpp.txt" "w" 7) = Except.ok w' ∧
      w'.get 1 = some 7 ∧ w'.Exclusive :=
  ⟨_, rfl, rfl,
    exclusive_ownership_invariant.2 World.init _ (Op.construct 1 "example_from_raii_cpp.txt" "w" 7)
      exclusive_ownership_invariant.1
      (by intro _ a o h; simp [World.init] at h) rfl⟩

/-- C4. Self move assignment `a = std::move(a)` is a no-op: `a.get()` is
unchanged, `std::fclose` is not called, and no object changes. -/
theorem moveAssign_self_noop (w : World) (a : Nat) (o : FileRAII)
    (ha : w.objs a = some o) :
    ∃ w', w.moveAssign a a = Except.ok w' ∧
      w'.get a = some o.get ∧ w'.closed = w.closed ∧ w'.objs = w.objs := by
  refine ⟨w, ?_, ?_, rfl, rfl⟩
  · simp [World.moveAssign, ha]
  · simp [World.get, ha]

/-- Self move assignment of an object that holds handle `7`. -/
theorem moveAssign_self_noop_witness :
    ∃ w', ({ objs := fun n => if n = 1 then some { file_ := 7 } else none,
             opened := [7], closed := [] } : World).moveAssign 1 1 = Except.ok w' ∧
      w'.get 1 = some 7 ∧ w'.closed = [] ∧
      w'.objs = fun n => if n = 1 then some { file_ := 7 } else none :=
  moveAssign_self_noop _ 1 { file_ := 7 } (by simp)

/-- C5. Move assignment `b = std::move(a)` between two distinct objects of a
state with exclusive ownership: `std::fclose` is called exactly once, on the
handle `b` held, when that handle is non-null, and not at all otherwise; the
handle of `a` is not among the closed ones; afterwards `b.get()` is the former
handle of `a` and `a.get()` is null. -/
theorem moveAssign_distinct (w : World) (b a : Nat) (ob oa : FileRAII)
    (hne : b ≠ a) (hb : w.objs b = some ob) (ha : w.objs a = some oa)
    (hx : w.Exclusive) :
    ∃ w', w.moveAssign b a = Except.ok w' ∧
      w'.closed = w.closed ++ (if ob.get ≠ nullptr then [ob.get] else []) ∧
      oa.get ∉ (if ob.get ≠ nullptr then [ob.get] else []) ∧
      w'.get b = some oa.get ∧ w'.get a = some nullptr := by
  simp only [World.moveAssign, hb, ha, hne, ne_eq, not_false_eq_true, if_true]
  refine ⟨_, rfl, ?_, ?_, ?_, ?_⟩
  · by_cases h0 : ob.file_ = 0 <;>
      simp [FileRAII.moveAssignBody, FileRAII.close, FileRAII.get, h0]
  · by_cases h0 : ob.file_ = 0
    · simp [FileRAII.get, h0]
    · simp only [FileRAII.get, ne_eq, h0, not_false_eq_true, if_true, List.mem_singleton]
      intro e
      exact hne (hx b a ob oa hb ha h0 e.symm)
  · simp [World.get, FileRAII.moveAssignBody, FileRAII.get, Function.update_noteq hne]
  · simp [World.get, FileRAII.moveAssignBody, FileRAII.get]

/-- Object `2` holding handle `5` is assigned from object `1` holding `7`. -/
theorem moveAssign_distinct_witness :
    ∃ w', ({ objs := fun n => if n = 1 then some { file_ := 7 }
                              else if n = 2 then some { file_ := 5 } else none,
             opened := [7, 5], closed := [] } : World).moveAssign 2 1 = Except.ok w' ∧
      w'.closed = [] ++ (if (5 : FilePtr) ≠ nullptr then [5] else []) ∧
      (7 : FilePtr) ∉ (if (5 : FilePtr) ≠ nullptr then [5] else []) ∧
      w'.get 2 = some 7 ∧ w'.get 1 = some nullptr :=
  moveAssign_distinct _ 2 1 { file_ := 5 } { file_ := 7 } (by decide) (by simp) (by simp)
    (by
      intro a b oa ob h1 h2 h3 h4
      simp only at h1 h2
      split_ifs at h1 h2 <;> first
        | omega
        | (cases h1; cases h2; simp at h4))

/-- C6. The constructor fails, with the text "Failed to open file", exactly
when `std::fopen` returns null; every object it produces has a non-null
`get()`, equal to the handle `std::fopen` returned; and when `std::fopen`
returns a non-null handle it does produce an object. -/
theorem ctor_fails_iff_fopen_null (fopen : String → String → FilePtr)
    (filename mode : String) :
    (FileRAII.ctor fopen filename mode = Except.error "Failed to open file" ↔
      fopen filename mode = nullptr) ∧
    (∀ what, FileRAII.ctor fopen filename mode = Except.error what →
      what = "Failed to open file") ∧
    (∀ obj, FileRAII.ctor fopen filename mode = Except.ok obj →
      obj.get ≠ nullptr ∧ obj.get = fopen filename mode) ∧
    (fopen filename mode ≠ nullptr →
      FileRAII.ctor fopen filename mode = Except.ok { file_ := fopen filename mode }) := by
  unfold FileRAII.ctor
  by_cases h0 : fopen filename mode = 0
  · simp [h0]
  · simp only [h0, if_false, false_iff, ne_eq, not_false_eq_true, true_implies, and_true]
    refine ⟨by simp, by simp, ?_⟩
    intro obj hobj
    cases hobj
    exact ⟨h0, rfl⟩

/-- With a `std::fopen` that finds every file but "missing.txt": opening
"missing.txt" fails, opening another file gives an object holding handle 7. -/
theorem ctor_fails_iff_fopen_null_witness :
    FileRAII.ctor (fun name _ => if name = "missing.txt" then nullptr else 7)
        "missing.txt" "r" = Except.error "Failed to open file" ∧
    FileRAII.ctor (fun name _ => if name = "missing.txt" then nullptr else 7)
        "example_from_raii_cpp.txt" "w" = Except.ok { file_ := 7 } :=
  ⟨(ctor_fails_iff_fopen_null _ "missing.txt" "r").1.mpr (by decide),
   (ctor_fails_iff_fopen_null (fun name _ => if name = "missing.txt" then nullptr else 7)
      "example_from_raii_cpp.txt" "w").2.2.2 (by decide)⟩

/-- C7. Destroying any object, a moved-from one included: the destructor
completes, `std::fclose` is called on the held handle when it is non-null and
never on null, and for a null handle it is not called at all. -/
theorem destroy_cannot_fail (w : World) (a : Nat) (o : FileRAII)
    (ha : w.objs a = some o) :
    ∃ w', w.destroy a = Except.ok w' ∧ w'.objs a = none ∧
      w'.closed = w.closed ++ (if o.get ≠ nullptr then [o.get] else []) ∧
      nullptr ∉ (if o.get ≠ nullptr then [o.get] else []) ∧
      (o.get = nullptr → w'.closed = w.closed) := by
  simp only [World.destroy, ha]
  refine ⟨_, rfl, by simp, ?_, ?_, ?_⟩
  · by_cases h0 : o.file_ = 0 <;> simp [FileRAII.dtor, FileRAII.close, FileRAII.get, h0]
  · by_cases h0 : o.file_ = 0
    · simp [FileRAII.get, h0]
    · simpa [FileRAII.get, h0] using fun e => h0 e.symm
  · intro h0
    have h0' : o.file_ = 0 := h0
    simp [FileRAII.dtor, FileRAII.close, h0']

/-- Destroying a moved-from object after its handle `7` went elsewhere. -/
theorem destroy_cannot_fail_witness :
    ∃ w', ({ objs := fun n => if n = 1 then some { file_ := nullptr } else none,
             opened := [7], closed := [7] } : World).destroy 1 = Except.ok w' ∧
      w'.objs 1 = none ∧
      w'.closed = [7] ++ (if nullptr ≠ nullptr then [nullptr] else []) ∧
      nullptr ∉ (if nullptr ≠ nullptr then [nullptr] else []) ∧
      (nullptr = nullptr → w'.closed = [7]) :=
  destroy_cannot_fail _ 1 { file_ := nullptr } (by simp)

end Raii

namespace SmartPointers

/-! ## Shared and weak ownership: lemmas -/

/-- The group of `n + 1` owners: one control block with strong count `n + 1`,
and `n + 1` equal owners. -/
theorem makeGroup_spec (h : Heap) (cb : Nat) (p : Ptr) (d : Deleter) (n : Nat) :
    (makeGroup h cb p d n).1.blocks cb =
        some { strongCount := n + 1, weakCount := 0, managedPointer := p, deleter := d } ∧
      (makeGroup h cb p d n).2 = List.replicate (n + 1) { controlBlock := some cb, rawPointer := p } ∧
      (makeGroup h cb p d n).1.mem = h.mem ∧
      (makeGroup h cb p d n).1.destroyed = h.destroyed := by
  induction n with
  | zero => simp [makeGroup, createWithDeleter]
  | succ n ih =>
    obtain ⟨hb, hl, hm, hd⟩ := ih
    have hcopy : ((makeGroup h cb p d n).2.headD SharedOwner.empty).copy (makeGroup h cb p d n).1 =
        some ({ (makeGroup h cb p d n).1 with
                  blocks := Function.update (makeGroup h cb p d n).1.blocks cb
                    (some { strongCount := n + 1 + 1, weakCount := 0,
                            managedPointer := p, deleter := d }) },
              { controlBlock := some cb, rawPointer := p }) := by
      rw [hl]
      simp [List.replicate_succ, SharedOwner.copy, hb]
    simp only [makeGroup, hcopy]
    refine ⟨by simp, ?_, hm, hd⟩
    rw [hl, ← List.replicate_succ']

/-- One drop of a populated owner. -/
theorem dropAt_spec {h : Heap} {owners : List SharedOwner} {cb i : Nat} {p : Ptr}
    {d : Deleter} {n k : Nat}
    (hb : h.blocks cb =
      some { strongCount := n, weakCount := k, managedPointer := p, deleter := d })
    (hi : owners.get? i = some { controlBlock := some cb, rawPointer := p }) :
    dropAt (h, owners) i =
      (if n - 1 = 0 then
        { mem := d h.mem p,
          blocks := if k = 0 then Function.update h.blocks cb none
                    else Function.update h.blocks cb
                      (some { strongCount := 0, weakCount := k,
                              managedPointer := p, deleter := d }),
          destroyed := h.destroyed ++ [p] }
       else
        { h with blocks := Function.update h.blocks cb
                   (some { strongCount := n - 1, weakCount := k,
                           managedPointer := p, deleter := d }) },
       owners.set i SharedOwner.empty) := by
  simp only [dropAt, hi, SharedOwner.reset, hb]
  by_cases hn : n - 1 = 0 <;> simp [hn]

/-- Drops of distinct populated owners of a block with strong count `n`: fewer
than `n` drops only lower the count, `n` drops invoke the deleter once. -/
theorem dropAll_spec {cb : Nat} {p : Ptr} {d : Deleter} {k : Nat} :
    ∀ (order : List Nat) (h : Heap) (owners : List SharedOwner) (n : Nat),
      order.Nodup →
      (∀ i ∈ order, owners.get? i = some { controlBlock := some cb, rawPointer := p }) →
      h.blocks cb =
        some { strongCount := n, weakCount := k, managedPointer := p, deleter := d } →
      order.length ≤ n →
      (order.length < n →
        (dropAll (h, owners) order).1.blocks cb =
            some { strongCount := n - order.length, weakCount := k,
                   managedPointer := p, deleter := d } ∧
          (dropAll (h, owners) order).1.destroyed = h.destroyed ∧
          (dropAll (h, owners) order).1.mem = h.mem) ∧
      (order.length = n → 0 < n →
        (dropAll (h, owners) order).1.blocks cb =
            (if k = 0 then none
             else some { strongCount := 0, weakCount := k,
                         managedPointer := p, deleter := d }) ∧
          (dropAll (h, owners) order).1.destroyed = h.destroyed ++ [p] ∧
          (dropAll (h, owners) order).1.mem = d h.mem p) := by
  intro order
  induction order with
  | nil =>
    intro h owners n _ _ hb _
    refine ⟨fun _ => ?_, fun h0 hpos => ?_⟩
    · simpa [dropAll] using hb
    · simp only [List.length_nil] at h0
      omega
  | cons i rest ih =>
    intro h owners n hnd hmem hb hlen
    have hi := hmem i (List.mem_cons_self _ _)
    obtain ⟨hirest, hndrest⟩ := List.nodup_cons.mp hnd
    have hstep := dropAt_spec hb hi
    have hunf : dropAll (h, owners) (i :: rest) = dropAll (dropAt (h, owners) i) rest := by
      simp [dropAll]
    simp only [List.length_cons] at hlen ⊢
    rw [hunf, hstep]
    by_cases hn : n - 1 = 0
    · have hrest : rest = [] := by
        apply List.eq_nil_of_length_eq_zero
        omega
      subst hrest
      simp only [hn, if_true, dropAll, List.foldl_nil, List.length_nil]
      refine ⟨fun h1 => by omega, fun _ _ => ?_⟩
      by_cases hk : k = 0 <;> simp [hk]
    · simp only [hn, if_false]
      have hmem' : ∀ j ∈ rest, (owners.set i SharedOwner.empty).get? j =
          some { controlBlock := some cb, rawPointer := p } := by
        intro j hj
        have hne : i ≠ j := fun e => hirest (e ▸ hj)
        have hj' := hmem j (List.mem_cons_of_mem _ hj)
        simp only [List.get?_eq_getElem?] at hj' ⊢
        rw [List.getElem?_set_ne hne]
        exact hj'
      have := ih
        (Heap.mk h.mem (Function.update h.blocks cb (some (ControlBlock.mk (n - 1) k p d)))
          h.destroyed)
        (owners.set i SharedOwner.empty) (n - 1) hndrest hmem' (by simp) (by omega)
      obtain ⟨h1, h2⟩ := this
      refine ⟨fun hlt => ?_, fun heq hpos => ?_⟩
      · obtain ⟨a, b, c⟩ := h1 (by omega)
        refine ⟨?_, b, c⟩
        rw [a]
        have : n - 1 - rest.length = n - (rest.length + 1) := by omega
        rw [this]
      · exact h2 (by omega) (by omega)

/-- Constructing `k` observers raises the weak count by `k` and nothing else. -/
theorem observe_spec {h : Heap} {cb : Nat} {p : Ptr} {d : Deleter} {n k0 : Nat}
    (hb : h.blocks cb =
      some { strongCount := n, weakCount := k0, managedPointer := p, deleter := d })
    (k : Nat) :
    (observe { controlBlock := some cb, rawPointer := p } h k).1.blocks cb =
        some { strongCount := n, weakCount := k0 + k, managedPointer := p, deleter := d } ∧
      (observe { controlBlock := some cb, rawPointer := p } h k).2 =
        List.replicate k { controlBlock := some cb } ∧
      (observe { controlBlock := some cb, rawPointer := p } h k).1.mem = h.mem ∧
      (observe { controlBlock := some cb, rawPointer := p } h k).1.destroyed = h.destroyed := by
  induction k with
  | zero => simp [observe, hb]
  | succ k ih =>
    obtain ⟨hbk, hl, hm, hd⟩ := ih
    simp only [observe, WeakObserver.construct, hbk, hl]
    refine ⟨by simp [Nat.add_assoc], ?_, hm, hd⟩
    rw [← List.replicate_succ']

/-! ## Shared and weak ownership: theorems -/

/-- C8. Single destruction.  A group of `N ≥ 1` owners of one object (one
`createWithDeleter` and `N - 1` copies) is dropped in any order `order`, a
permutation of the owners' numbers.  After any `j < N` of the drops the deleter
has not been invoked and the strong count is `N - j` (so it is 1 before the last
drop); after all `N` the deleter has been invoked exactly once, on the managed
pointer.  In `main`: `sp1` and `sp2` share `Node` 3 with use count 2; nothing is
destroyed by `sp2.reset()` (line 49) nor up to line 69, where the use count is 1;
`sp1.reset()` (line 71) destroys it; and the text "Node 3 destroyed" is written
exactly once. -/
theorem single_destruction (h : Heap) (cb : Nat) (p : Ptr) (d : Deleter) (N : Nat)
    (hN : 1 ≤ N) (order : List Nat) (hperm : order.Perm (List.range N)) :
    (makeGroup h cb p d (N - 1)).2 =
        List.replicate N { controlBlock := some cb, rawPointer := p } ∧
    (∀ j, j < N →
      (dropAll (makeGroup h cb p d (N - 1)) (order.take j)).1.destroyed = h.destroyed ∧
      ((dropAll (makeGroup h cb p d (N - 1)) (order.take j)).1.blocks cb).map
          ControlBlock.strongCount = some (N - j)) ∧
    (dropAll (makeGroup h cb p d (N - 1)) order).1.destroyed = h.destroyed ++ [p] ∧
    (dropAll (makeGroup h cb p d (N - 1)) order).1.mem = d h.mem p ∧
    (mainThrough 47).map (fun f => (f.sp1, f.sp2, f.sp1.useCount f.heap)) =
        some ({ controlBlock := some 3, rawPointer := 103 },
              { controlBlock := some 3, rawPointer := 103 }, 2) ∧
    (mainThrough 49).map (fun f => f.heap.destroyed) = some [] ∧
    (mainThrough 69).map (fun f => (f.heap.destroyed, f.sp1.useCount f.heap)) =
        some ([], 1) ∧
    (mainThrough 71).map (fun f => f.heap.destroyed) = some [103] ∧
    (mainThrough 72).map
        (fun f => (f.heap.destroyed, f.heap.mem.out.count "Node 3 destroyed\n")) =
      some ([103], 1) := by
  obtain ⟨hb, hl, hm, hd⟩ := makeGroup_spec h cb p d (N - 1)
  have hN1 : N - 1 + 1 = N := by omega
  rw [hN1] at hb hl
  have hlen : order.length = N := by rw [hperm.length_eq, List.length_range]
  have hnd : order.Nodup := hperm.nodup_iff.mpr (List.nodup_range N)
  have hmem : ∀ i ∈ order, (makeGroup h cb p d (N - 1)).2.get? i =
      some { controlBlock := some cb, rawPointer := p } := by
    intro i hi
    have hlt : i < N := List.mem_range.mp (hperm.mem_iff.mp hi)
    rw [hl]
    simp [List.getElem?_replicate, hlt]
  refine ⟨hl, ?_, ?_, ?_, by decide, by decide, by decide, by decide, by decide⟩
  · intro j hj
    have htl : (order.take j).length = j := by
      rw [List.length_take, hlen]; omega
    have := (dropAll_spec (order.take j) (makeGroup h cb p d (N - 1)).1
      (makeGroup h cb p d (N - 1)).2 N (hnd.sublist (List.take_sublist _ _))
      (fun i hi => hmem i (List.mem_of_mem_take hi)) hb (by omega)).1 (by omega)
    obtain ⟨a, b, _⟩ := this
    rw [htl] at a
    exact ⟨b.trans hd, by rw [a]; rfl⟩
  · have := (dropAll_spec order (makeGroup h cb p d (N - 1)).1
      (makeGroup h cb p d (N - 1)).2 N hnd hmem hb (by omega)).2 hlen (by omega)
    rw [← hd]
    exact this.2.1
  · have := (dropAll_spec order (makeGroup h cb p d (N - 1)).1
      (makeGroup h cb p d (N - 1)).2 N hnd hmem hb (by omega)).2 hlen (by omega)
    rw [← hm]
    exact this.2.2

/-- Three owners of the object at 103, dropped in the order 2, 0, 1: nothing is
destroyed by the first two drops, the third destroys the object. -/
theorem single_destruction_witness :
    (dropAll (makeGroup Frame.start.heap 3 103 Node.dtor (3 - 1)) ([2, 0, 1].take 2)).1.destroyed
        = [] ∧
    (dropAll (makeGroup Frame.start.heap 3 103 Node.dtor (3 - 1)) [2, 0, 1]).1.destroyed
        = [] ++ [103] :=
  ⟨((single_destruction Frame.start.heap 3 103 Node.dtor 3 (by decide) [2, 0, 1]
      (by decide)).2.1 2 (by decide)).1,
   (single_destruction Frame.start.heap 3 103 Node.dtor 3 (by decide) [2, 0, 1]
      (by decide)).2.2.1⟩

/-- C9. Weak observers do not extend the lifetime.  From a group of `N ≥ 1`
owners of one object, `k` weak observers are constructed: the use count is `N`
before and after.  The owners are then dropped in any order: the deleter is
invoked (once) on the object although the observers still exist (for `k ≥ 1`
the control block is still there and counts `k` weak references), and `lock()`
on each of the observers returns the empty owner and leaves the heap as it is,
so every later `lock()` does the same.  In `main`: the use count is 1 before
and after `wp = sp1` (line 68); `sp1.reset()` (line 71) destroys `Node` 3 while
`wp` still refers to the control block; `wp.lock()` is then empty and line 72
prints "no". -/
theorem weak_does_not_extend_lifetime (h : Heap) (cb : Nat) (p : Ptr) (d : Deleter)
    (N k : Nat) (hN : 1 ≤ N) (order : List Nat) (hperm : order.Perm (List.range N)) :
    SharedOwner.useCount { controlBlock := some cb, rawPointer := p }
        (makeGroup h cb p d (N - 1)).1 = N ∧
    SharedOwner.useCount { controlBlock := some cb, rawPointer := p }
        (observe { controlBlock := some cb, rawPointer := p }
          (makeGroup h cb p d (N - 1)).1 k).1 = N ∧
    (observe { controlBlock := some cb, rawPointer := p }
        (makeGroup h cb p d (N - 1)).1 k).2 = List.replicate k { controlBlock := some cb } ∧
    (dropAll ((observe { controlBlock := some cb, rawPointer := p }
        (makeGroup h cb p d (N - 1)).1 k).1, (makeGroup h cb p d (N - 1)).2) order).1.destroyed
      = h.destroyed ++ [p] ∧
    (dropAll ((observe { controlBlock := some cb, rawPointer := p }
        (makeGroup h cb p d (N - 1)).1 k).1, (makeGroup h cb p d (N - 1)).2) order).1.mem
      = d h.mem p ∧
    (1 ≤ k →
      ((dropAll ((observe { controlBlock := some cb, rawPointer := p }
          (makeGroup h cb p d (N - 1)).1 k).1, (makeGroup h cb p d (N - 1)).2) order).1.blocks
        cb).map (fun b => (b.strongCount, b.weakCount)) = some (0, k)) ∧
    (∀ w ∈ (observe { controlBlock := some cb, rawPointer := p }
        (makeGroup h cb p d (N - 1)).1 k).2,
      w.lock (dropAll ((observe { controlBlock := some cb, rawPointer := p }
          (makeGroup h cb p d (N - 1)).1 k).1, (makeGroup h cb p d (N - 1)).2) order).1 =
        ((dropAll ((observe { controlBlock := some cb, rawPointer := p }
          (makeGroup h cb p d (N - 1)).1 k).1, (makeGroup h cb p d (N - 1)).2) order).1,
         SharedOwner.empty)) ∧
    (mainThrough 50).map (fun f => f.sp1.useCount f.heap) = some 1 ∧
    (mainThrough 68).map (fun f => (f.sp1.useCount f.heap, f.wp)) =
        some (1, { controlBlock := some 3 }) ∧
    (mainThrough 71).map (fun f => (f.heap.destroyed, f.heap.mem.objects 103, f.wp,
        (f.heap.blocks 3).map (fun b => (b.strongCount, b.weakCount)))) =
      some ([103], none, { controlBlock := some 3 }, some (0, 1)) ∧
    (mainThrough 71).map (fun f => (f.wp.lock f.heap).2) = some SharedOwner.empty ∧
    (mainThrough 72).map (fun f => f.heap.mem.out.getLast?) =
      some (some "After sp1 reset, weak lock success? no\n") := by
  obtain ⟨hb, hl, hm, hd⟩ := makeGroup_spec h cb p d (N - 1)
  have hN1 : N - 1 + 1 = N := by omega
  rw [hN1] at hb hl
  obtain ⟨hob, hol, hom, hod⟩ := observe_spec hb k
  have hlen : order.length = N := by rw [hperm.length_eq, List.length_range]
  have hnd : order.Nodup := hperm.nodup_iff.mpr (List.nodup_range N)
  have hmem : ∀ i ∈ order, (makeGroup h cb p d (N - 1)).2.get? i =
      some { controlBlock := some cb, rawPointer := p } := by
    intro i hi
    have hlt : i < N := List.mem_range.mp (hperm.mem_iff.mp hi)
    rw [hl]
    simp [List.getElem?_replicate, hlt]
  obtain ⟨hfb, hfd, hfm⟩ := (dropAll_spec order _ (makeGroup h cb p d (N - 1)).2 N hnd hmem
    hob (by omega)).2 hlen (by omega)
  rw [hod, hd] at hfd
  rw [hom, hm] at hfm
  simp only [Nat.zero_add] at hfb
  refine ⟨by simp [SharedOwner.useCount, hb], by simp [SharedOwner.useCount, hob], hol,
    hfd, hfm, ?_, ?_, by decide, by decide, by decide, by decide, by decide⟩
  · intro hk
    have hk0 : ¬ k = 0 := by omega
    rw [hfb]
    simp [hk0]
  · intro w hw
    rw [hol] at hw
    have hwe : w = { controlBlock := some cb } := List.eq_of_mem_replicate hw
    subst hwe
    by_cases hk0 : k = 0
    · rw [hk0] at hw
      cases hw
    · simp only [WeakObserver.lock]
      rw [hfb]
      simp [hk0]

/-- Two owners and two observers of the object at 103: the owners are dropped
in the order 1, 0, after which the object is destroyed and an observer's
`lock()` is empty. -/
theorem weak_does_not_extend_lifetime_witness :
    (dropAll ((observe { controlBlock := some 3, rawPointer := 103 }
        (makeGroup Frame.start.heap 3 103 Node.dtor (2 - 1)).1 2).1,
        (makeGroup Frame.start.heap 3 103 Node.dtor (2 - 1)).2) [1, 0]).1.destroyed
      = [] ++ [103] ∧
    (1 ≤ 2 →
      ((dropAll ((observe { controlBlock := some 3, rawPointer := 103 }
          (makeGroup Frame.start.heap 3 103 Node.dtor (2 - 1)).1 2).1,
          (makeGroup Frame.start.heap 3 103 Node.dtor (2 - 1)).2) [1, 0]).1.blocks
        3).map (fun b => (b.strongCount, b.weakCount)) = some (0, 2)) :=
  ⟨(weak_does_not_extend_lifetime Frame.start.heap 3 103 Node.dtor 2 2 (by decide) [1, 0]
      (by decide)).2.2.2.1,
   (weak_does_not_extend_lifetime Frame.start.heap 3 103 Node.dtor 2 2 (by decide) [1, 0]
      (by decide)).2.2.2.2.2.1⟩

/-- C10. `lock()` on a weak observer whose control block has strong count `n`:
the result is populated exactly when `n > 0`; it then refers to the same
control block and the same object, the strong count is `n + 1` while the result
lives and nothing is destroyed, and dropping the result gives back the heap as
it was before the call; for `n = 0`, and for an observer without a control
block, the result is empty and the heap is unchanged.  In `main`: `wp.lock()` on
line 69, while `sp1` owns `Node` 3, is an owner of `Node` 3 and "yes" is printed;
after `sp1.reset()` it is empty and "no" is printed. -/
theorem lock_populated_iff_strong (h : Heap) (w : WeakObserver) :
    (∀ cb b, w.controlBlock = some cb → h.blocks cb = some b →
      ((w.lock h).2.populated = true ↔ 0 < b.strongCount) ∧
      (0 < b.strongCount →
        (w.lock h).2 = { controlBlock := some cb, rawPointer := b.managedPointer } ∧
        (w.lock h).2.useCount (w.lock h).1 = b.strongCount + 1 ∧
        (w.lock h).1.destroyed = h.destroyed ∧
        (w.lock h).1.mem = h.mem ∧
        ((w.lock h).2.reset (w.lock h).1).1 = h) ∧
      (b.strongCount = 0 → w.lock h = (h, SharedOwner.empty))) ∧
    (w.controlBlock = none → w.lock h = (h, SharedOwner.empty)) ∧
    (∀ cb, w.controlBlock = some cb → h.blocks cb = none →
      w.lock h = (h, SharedOwner.empty)) ∧
    (mainThrough 68).map (fun f => ((f.wp.lock f.heap).2, f.sp1.useCount f.heap,
        f.sp1.useCount (f.wp.lock f.heap).1)) =
      some ({ controlBlock := some 3, rawPointer := 103 }, 1, 2) ∧
    (mainThrough 69).map (fun f => (f.heap.mem.out.getLast?, f.sp1.useCount f.heap)) =
      some (some "Weak lock success? yes\n", 1) ∧
    (mainThrough 71).map (fun f => ((f.wp.lock f.heap).2, f.sp1.useCount f.heap)) =
      some (SharedOwner.empty, 0) ∧
    (mainThrough 72).map (fun f => f.heap.mem.out.getLast?) =
      some (some "After sp1 reset, weak lock success? no\n") := by
  obtain ⟨mem, blocks, destroyed⟩ := h
  refine ⟨?_, ?_, ?_, by decide, by decide, by decide, by decide⟩
  · intro cb b hw hb
    simp only at hb
    by_cases hn : 0 < b.strongCount
    · refine ⟨?_, fun _ => ⟨?_, ?_, ?_, ?_, ?_⟩, fun h0 => by omega⟩
      · simp [WeakObserver.lock, hw, hb, hn, SharedOwner.populated]
      · simp [WeakObserver.lock, hw, hb, hn]
      · simp [WeakObserver.lock, hw, hb, hn, SharedOwner.useCount]
      · simp [WeakObserver.lock, hw, hb, hn]
      · simp [WeakObserver.lock, hw, hb, hn]
      · have hself : Function.update blocks cb (some b) = blocks := by
          rw [← hb]
          exact Function.update_eq_self cb blocks
        have h0' : ¬ b.strongCount = 0 := by omega
        simp only [WeakObserver.lock, hw, hb, hn, if_true, SharedOwner.reset,
          Function.update_same, Nat.add_sub_cancel, h0', if_false, Function.update_idem]
        exact congrArg (fun bl => Heap.mk mem bl destroyed) hself
    · have h0 : b.strongCount = 0 := by omega
      refine ⟨?_, fun h1 => absurd h1 hn, fun _ => ?_⟩
      · simp [WeakObserver.lock, hw, hb, h0, SharedOwner.populated, SharedOwner.empty]
      · simp [WeakObserver.lock, hw, hb, h0]
  · intro hw
    simp [WeakObserver.lock, hw]
  · intro cb hw hb
    simp only at hb
    simp [WeakObserver.lock, hw, hb]

/-- An observer of a block with strong count 1 locks successfully; the same
observer after the count has dropped to 0 gets the empty owner. -/
theorem lock_populated_iff_strong_witness :
    (WeakObserver.lock { controlBlock := some 3 }
        (makeGroup Frame.start.heap 3 103 Node.dtor 0).1).2.populated = true ∧
    WeakObserver.lock { controlBlock := some 3 }
        (dropAll ((observe { controlBlock := some 3, rawPointer := 103 }
          (makeGroup Frame.start.heap 3 103 Node.dtor 0).1 1).1,
          (makeGroup Frame.start.heap 3 103 Node.dtor 0).2) [0]).1 =
      ((dropAll ((observe { controlBlock := some 3, rawPointer := 103 }
          (makeGroup Frame.start.heap 3 103 Node.dtor 0).1 1).1,
          (makeGroup Frame.start.heap 3 103 Node.dtor 0).2) [0]).1, SharedOwner.empty) :=
  ⟨((lock_populated_iff_strong (makeGroup Frame.start.heap 3 103 Node.dtor 0).1
      { controlBlock := some 3 }).1 3
      { strongCount := 1, weakCount := 0, managedPointer := 103, deleter := Node.dtor }
      rfl rfl).1.mpr (by decide),
   ((lock_populated_iff_strong _ { controlBlock := some 3 }).1 3
      { strongCount := 0, weakCount := 1, managedPointer := 103, deleter := Node.dtor }
      rfl rfl).2.2 rfl⟩

/-! ## Counts, exclusive owners and the cache: lemmas -/

/-- A `lock()` whose result is dropped again gives back the heap, whatever was
written to memory in between. -/
theorem lock_reset_restore (h : Heap) (w : WeakObserver) (m : Mem) :
    ((w.lock h).2.reset (Heap.mk m (w.lock h).1.blocks (w.lock h).1.destroyed)).1 =
      Heap.mk m h.blocks h.destroyed := by
  obtain ⟨mem, blocks, destroyed⟩ := h
  cases hw : w.controlBlock with
  | none => simp [WeakObserver.lock, hw, SharedOwner.reset, SharedOwner.empty]
  | some cb =>
    cases hb : blocks cb with
    | none => simp [WeakObserver.lock, hw, hb, SharedOwner.reset, SharedOwner.empty]
    | some b =>
      by_cases hn : 0 < b.strongCount
      · have hself : Function.update blocks cb (some b) = blocks := by
          rw [← hb]
          exact Function.update_eq_self cb blocks
        have h0 : ¬ b.strongCount = 0 := by omega
        simp only [WeakObserver.lock, hw, hb, hn, if_true, SharedOwner.reset,
          Function.update_same, Nat.add_sub_cancel, h0, if_false, Function.update_idem]
        exact congrArg (fun bl => Heap.mk m bl destroyed) hself
      · simp [WeakObserver.lock, hw, hb, hn, SharedOwner.reset, SharedOwner.empty]

/-- A `lock()` leaves memory and the log of deleter invocations as they are. -/
theorem lock_mem (h : Heap) (w : WeakObserver) :
    (w.lock h).1.mem = h.mem ∧ (w.lock h).1.destroyed = h.destroyed := by
  cases hw : w.controlBlock with
  | none => simp [WeakObserver.lock, hw]
  | some cb =>
    cases hb : h.blocks cb with
    | none => simp [WeakObserver.lock, hw, hb]
    | some b => by_cases hn : 0 < b.strongCount <;> simp [WeakObserver.lock, hw, hb, hn]

/-- A copy of an owner whose block counts `n > 0` strong references. -/
theorem copy_spec {h : Heap} {s : SharedOwner} {cb : Nat} {b : ControlBlock}
    (hs : s.controlBlock = some cb) (hb : h.blocks cb = some b) (hpos : 0 < b.strongCount) :
    s.copy h = some (Heap.mk h.mem (Function.update h.blocks cb
      (some (ControlBlock.mk (b.strongCount + 1) b.weakCount b.managedPointer b.deleter)))
      h.destroyed, s) := by
  simp [SharedOwner.copy, hs, hb, hpos]

/-- A reset of an owner whose block counts at least two strong references. -/
theorem reset_spec_shared {h : Heap} {s : SharedOwner} {cb : Nat} {b : ControlBlock}
    (hs : s.controlBlock = some cb) (hb : h.blocks cb = some b) (h2 : 2 ≤ b.strongCount) :
    s.reset h = (Heap.mk h.mem (Function.update h.blocks cb
      (some (ControlBlock.mk (b.strongCount - 1) b.weakCount b.managedPointer b.deleter)))
      h.destroyed, SharedOwner.empty) := by
  have hne : ¬ (b.strongCount - 1 = 0) := by omega
  simp [SharedOwner.reset, hs, hb, hne]

/-! ## Counts, exclusive owners and the cache: theorems -/

/-- C11. Copying an owner whose control block counts `n > 0` strong references
gives the same owner and raises the count to `n + 1`, destroying nothing;
resetting the copy lowers the count to `n` again, destroys nothing and gives
back the heap as it was; resetting any owner of a block that counts at least
two lowers the count by one and destroys nothing.  In `main`: the use count is
1 after line 44, 2 after `sp2 = sp1` (printed by line 47), and 1 after
`sp2.reset()` (printed by line 50), where nothing has been destroyed and
`Node` 3 is still alive. -/
theorem copy_raises_reset_lowers (h : Heap) (s : SharedOwner) (cb : Nat) (b : ControlBlock)
    (hs : s.controlBlock = some cb) (hb : h.blocks cb = some b) (hpos : 0 < b.strongCount) :
    (∃ h' s', s.copy h = some (h', s') ∧ s' = s ∧
      s.useCount h = b.strongCount ∧ s.useCount h' = b.strongCount + 1 ∧
      h'.destroyed = h.destroyed ∧ h'.mem = h.mem ∧
      s.useCount (s'.reset h').1 = b.strongCount ∧
      (s'.reset h').1.destroyed = h.destroyed ∧ (s'.reset h').1.mem = h.mem ∧
      (s'.reset h').1 = h) ∧
    (2 ≤ b.strongCount →
      s.useCount (s.reset h).1 = b.strongCount - 1 ∧
      (s.reset h).1.destroyed = h.destroyed ∧ (s.reset h).1.mem = h.mem) ∧
    (mainThrough 44).map (fun f => f.sp1.useCount f.heap) = some 1 ∧
    (mainThrough 45).map (fun f => (f.sp1.useCount f.heap, decide (f.sp2 = f.sp1))) =
      some (2, true) ∧
    (mainThrough 47).map (fun f => f.heap.mem.out.getLast?) = some (some "Use count: 2\n") ∧
    (mainThrough 49).map (fun f => (f.sp1.useCount f.heap, f.sp2, f.heap.destroyed,
        f.heap.mem.objects 103)) =
      some (1, SharedOwner.empty, [], some { value := 3 }) ∧
    (mainThrough 50).map (fun f => (f.heap.mem.out.getLast?,
        f.heap.mem.out.count "Node 3 destroyed\n")) =
      some (some "Use count after reset: 1\n", 0) := by
  refine ⟨?_, ?_, by decide, by decide, by decide, by decide, by decide⟩
  · have hcopy := copy_spec hs hb hpos
    have hb' : (Heap.mk h.mem (Function.update h.blocks cb
        (some (ControlBlock.mk (b.strongCount + 1) b.weakCount b.managedPointer b.deleter)))
        h.destroyed).blocks cb =
        some (ControlBlock.mk (b.strongCount + 1) b.weakCount b.managedPointer b.deleter) := by
      simp
    have hreset := reset_spec_shared hs hb' (by simp; omega)
    have hself : Function.update h.blocks cb (some b) = h.blocks := by
      rw [← hb]
      exact Function.update_eq_self cb h.blocks
    simp only [Function.update_idem, Nat.add_sub_cancel] at hreset
    have hback : (s.reset (Heap.mk h.mem (Function.update h.blocks cb
        (some (ControlBlock.mk (b.strongCount + 1) b.weakCount b.managedPointer b.deleter)))
        h.destroyed)).1 = h := by
      rw [hreset]
      exact congrArg (fun bl => Heap.mk h.mem bl h.destroyed) hself
    refine ⟨_, s, hcopy, rfl, ?_, ?_, rfl, rfl, ?_, ?_, ?_, hback⟩
    · simp [SharedOwner.useCount, hs, hb]
    · simp [SharedOwner.useCount, hs]
    · rw [hback]; simp [SharedOwner.useCount, hs, hb]
    · rw [hback]
    · rw [hback]
  · intro h2
    rw [reset_spec_shared hs hb h2]
    simp [SharedOwner.useCount, hs]

/-- The owner of `Node` 3 right after line 44 is copied, then the copy is
reset. -/
theorem copy_raises_reset_lowers_witness :
    ∃ h' s',
      SharedOwner.copy { controlBlock := some 3, rawPointer := 103 }
          (makeShared Frame.start.heap 3 103 3).1 = some (h', s') ∧
      s' = { controlBlock := some 3, rawPointer := 103 } ∧
      SharedOwner.useCount { controlBlock := some 3, rawPointer := 103 }
          (makeShared Frame.start.heap 3 103 3).1 = 1 ∧
      SharedOwner.useCount { controlBlock := some 3, rawPointer := 103 } h' = 1 + 1 ∧
      h'.destroyed = (makeShared Frame.start.heap 3 103 3).1.destroyed ∧
      h'.mem = (makeShared Frame.start.heap 3 103 3).1.mem ∧
      SharedOwner.useCount { controlBlock := some 3, rawPointer := 103 } (s'.reset h').1 = 1 ∧
      (s'.reset h').1.destroyed = (makeShared Frame.start.heap 3 103 3).1.destroyed ∧
      (s'.reset h').1.mem = (makeShared Frame.start.heap 3 103 3).1.mem ∧
      (s'.reset h').1 = (makeShared Frame.start.heap 3 103 3).1 :=
  (copy_raises_reset_lowers (makeShared Frame.start.heap 3 103 3).1
    { controlBlock := some 3, rawPointer := 103 } 3
    { strongCount := 1, weakCount := 0, managedPointer := 103, deleter := Node.dtor }
    rfl rfl (by decide)).1

/-- C12. `release()` returns the pointer `get()` returned before the call,
leaves the owner null and the heap as it was, so no deleter is invoked, and the
later destruction of the owner invokes none either.  In `main`, whichever way
the cache is traversed: before line 26 `up2` owns `Node` 2 at 102; after
`raw = up2.release()` `raw` is 102, `up2` is null, `Node` 2 is alive and no
deleter has been invoked since; `delete raw` (line 27) destroys `Node` 2; at
the end of `main` the text "Node 2 destroyed" has been written exactly once
and no deleter was ever invoked on 102. -/
theorem release_hands_over (e : ExclusiveOwner) (h : Heap) :
    (e.release h).1 = h ∧
    (e.release h).2.1 = e.get ∧
    (e.release h).2.2.get = nullptr ∧
    (e.release h).2.2.destroy (e.release h).1 = h ∧
    (∀ reversed,
      (fullMainThrough reversed 23).map (fun f => (f.up2.get, f.heap.mem.objects 102,
          f.heap.destroyed, f.heap.mem.out.count "Node 2 destroyed\n")) =
        some (102, some { value := 2 }, [101], 0) ∧
      (fullMainThrough reversed 26).map (fun f => (f.raw, f.up2.get, f.heap.mem.objects 102,
          f.heap.destroyed, f.heap.mem.out.count "Node 2 destroyed\n")) =
        some (102, nullptr, some { value := 2 }, [101], 0) ∧
      (fullMainThrough reversed 27).map (fun f => (f.heap.mem.objects 102,
          f.heap.destroyed, f.heap.mem.out.count "Node 2 destroyed\n")) =
        some (none, [101], 1) ∧
      (fullMainThrough reversed 114).map (fun f => (f.up2.get,
          f.heap.mem.out.count "Node 2 destroyed\n", f.heap.destroyed.count 102)) =
        some (nullptr, 1, 0)) := by
  refine ⟨rfl, rfl, rfl, ?_, ?_⟩
  · simp [ExclusiveOwner.release, ExclusiveOwner.destroy]
  · intro reversed
    cases reversed <;> exact ⟨by decide, by decide, by decide, by decide⟩

/-- The spec's scenario: an owner of the object at 142 with the custom deleter
releases it; the log of deleter invocations stays empty and the pointer handed
over is 142. -/
theorem release_hands_over_witness :
    ((ExclusiveOwner.construct 142 customDeleter).release
        (newNode Frame.start.heap 142 42)).1.destroyed = [] ∧
    ((ExclusiveOwner.construct 142 customDeleter).release
        (newNode Frame.start.heap 142 42)).2.1 = 142 :=
  ⟨congrArg Heap.destroyed
      (release_hands_over (ExclusiveOwner.construct 142 customDeleter)
        (newNode Frame.start.heap 142 42)).1,
   (release_hands_over (ExclusiveOwner.construct 142 customDeleter)
      (newNode Frame.start.heap 142 42)).2.1⟩

/-- C13. `reset(newPointer)` on an owner of a non-null pointer invokes the
stored deleter exactly once, on that pointer, and touches no control block; on
a null owner it invokes nothing; in both cases the owner holds `newPointer`
afterwards, with the same deleter.  In `main`, whichever way the cache is
traversed: before line 23 `up2` owns `Node` 1 at 101 and no deleter has been
invoked; after `up2.reset(new Node(2))` the deleter has been invoked on 101
only, `Node` 1 is gone, `up2` owns `Node` 2 at 102, which is alive; and when
`main` has ended the text "Node 1 destroyed" has been written exactly once. -/
theorem reset_destroys_once (e : ExclusiveOwner) (newPointer : Ptr) (h : Heap) :
    (e.rawPointer ≠ nullptr →
      (e.reset newPointer h).1.destroyed = h.destroyed ++ [e.rawPointer] ∧
      (e.reset newPointer h).1.mem = e.deleter h.mem e.rawPointer ∧
      (e.reset newPointer h).1.blocks = h.blocks) ∧
    (e.rawPointer = nullptr → (e.reset newPointer h).1 = h) ∧
    (e.reset newPointer h).2.get = newPointer ∧
    (e.reset newPointer h).2.deleter = e.deleter ∧
    (∀ reversed,
      (fullMainThrough reversed 19).map (fun f => (f.up1.get, f.up2.get,
          f.heap.mem.objects 101, f.heap.destroyed)) =
        some (nullptr, 101, some { value := 1 }, []) ∧
      (fullMainThrough reversed 23).map (fun f => (f.up2.get, f.heap.destroyed,
          f.heap.mem.objects 101, f.heap.mem.objects 102)) =
        some (102, [101], none, some { value := 2 }) ∧
      (fullMainThrough reversed 23).map (fun f =>
          (f.heap.mem.out.count "Node 1 destroyed\n",
           f.heap.mem.out.count "Node 2 destroyed\n")) = some (1, 0) ∧
      (fullMainThrough reversed 114).map (fun f =>
          (f.heap.mem.out.count "Node 1 destroyed\n", f.heap.destroyed.count 101)) =
        some (1, 1)) := by
  refine ⟨?_, ?_, ?_, ?_, ?_⟩
  · intro hp
    simp [ExclusiveOwner.reset, hp]
  · intro hp
    simp [ExclusiveOwner.reset, hp]
  · by_cases hp : e.rawPointer = nullptr <;> simp [ExclusiveOwner.reset, ExclusiveOwner.get, hp]
  · by_cases hp : e.rawPointer = nullptr <;> simp [ExclusiveOwner.reset, hp]
  · intro reversed
    cases reversed <;> exact ⟨by decide, by decide, by decide, by decide⟩

/-- The owner of `Node` 1 at 101 is reset to 102. -/
theorem reset_destroys_once_witness :
    ((ExclusiveOwner.construct 101 Node.dtor).reset 102
        (newNode Frame.start.heap 101 1)).1.destroyed =
      (newNode Frame.start.heap 101 1).destroyed ++ [101] ∧
    ((ExclusiveOwner.construct 101 Node.dtor).reset 102
        (newNode Frame.start.heap 101 1)).2.get = 102 :=
  ⟨((reset_destroys_once (ExclusiveOwner.construct 101 Node.dtor) 102
      (newNode Frame.start.heap 101 1)).1 (by decide)).1,
   (reset_destroys_once (ExclusiveOwner.construct 101 Node.dtor) 102
      (newNode Frame.start.heap 101 1)).2.2.1⟩

/-- C14. Destroying an owner constructed with a deleter `d` and a non-null
pointer `p` invokes `d` exactly once, on `p`.  Nothing else does: `get()` and
`release()` leave the heap as it is, a move leaves a null source whose
destruction invokes nothing, so that destroying source and target, in either
order, invokes `d` once.  In `main`, whichever way the cache is traversed:
`up_custom` owns `Node` 42 at 142 from line 35 on; when `main` returns (line
113) `Node` 42 is alive and its deleter has not run; at the end the deleter has
been invoked on 142 exactly once, "Custom deleting Node 42" and "Node 42
destroyed" have each been written exactly once, and they are the last two
outputs. -/
theorem custom_deleter_once (p : Ptr) (d : Deleter) (h : Heap) (hp : p ≠ nullptr) :
    ((ExclusiveOwner.construct p d).destroy h).destroyed = h.destroyed ++ [p] ∧
    ((ExclusiveOwner.construct p d).destroy h).mem = d h.mem p ∧
    ((ExclusiveOwner.construct p d).destroy h).blocks = h.blocks ∧
    ((ExclusiveOwner.construct p d).release h).1 = h ∧
    ((ExclusiveOwner.construct p d).move.2.destroy h) = h ∧
    ((ExclusiveOwner.construct p d).move.2.destroy
        ((ExclusiveOwner.construct p d).move.1.destroy h)).destroyed = h.destroyed ++ [p] ∧
    ((ExclusiveOwner.construct p d).move.1.destroy
        ((ExclusiveOwner.construct p d).move.2.destroy h)).destroyed = h.destroyed ++ [p] ∧
    (∀ reversed,
      (fullMainThrough reversed 35).map (fun f => (f.up_custom.get,
          f.heap.mem.objects 142)) = some (142, some { value := 42 }) ∧
      (fullMainThrough reversed 113).map (fun f => (f.up_custom.get, f.heap.mem.objects 142,
          f.heap.destroyed.count 142, f.heap.mem.out.count "Custom deleting Node 42\n",
          f.heap.mem.out.count "Node 42 destroyed\n")) =
        some (142, some { value := 42 }, 0, 0, 0) ∧
      (fullMainThrough reversed 114).map (fun f => (f.heap.mem.objects 142,
          f.heap.destroyed.count 142, f.heap.mem.out.count "Custom deleting Node 42\n",
          f.heap.mem.out.count "Node 42 destroyed\n", f.heap.mem.out.reverse.take 2)) =
        some (none, 1, 1, 1, ["Node 42 destroyed\n", "Custom deleting Node 42\n"])) := by
  have hp' : ¬ p = 0 := hp
  refine ⟨?_, ?_, ?_, rfl, ?_, ?_, ?_, ?_⟩
  · simp [ExclusiveOwner.construct, ExclusiveOwner.destroy, hp']
  · simp [ExclusiveOwner.construct, ExclusiveOwner.destroy, hp']
  · simp [ExclusiveOwner.construct, ExclusiveOwner.destroy, hp']
  · simp [ExclusiveOwner.construct, ExclusiveOwner.move, ExclusiveOwner.destroy]
  · simp [ExclusiveOwner.construct, ExclusiveOwner.move, ExclusiveOwner.destroy, hp']
  · simp [ExclusiveOwner.construct, ExclusiveOwner.move, ExclusiveOwner.destroy, hp']
  · intro reversed
    cases reversed <;> exact ⟨by decide, by decide, by decide⟩

/-- The owner of `Node` 42 at 142 with the lambda of line 36 is destroyed: the
deleter is invoked on 142 and writes its two lines. -/
theorem custom_deleter_once_witness :
    ((ExclusiveOwner.construct 142 customDeleter).destroy
        (newNode Frame.start.heap 142 42)).destroyed =
      (newNode Frame.start.heap 142 42).destroyed ++ [142] ∧
    ((ExclusiveOwner.construct 142 customDeleter).destroy
        (newNode Frame.start.heap 142 42)).mem.out =
      ["Node 42 created\n", "Custom deleting Node 42\n", "Node 42 destroyed\n"] :=
  ⟨(custom_deleter_once 142 customDeleter (newNode Frame.start.heap 142 42) (by decide)).1,
   (congrArg Mem.out
      (custom_deleter_once 142 customDeleter (newNode Frame.start.heap 142 42)
        (by decide)).2.1).trans (by decide)⟩

/-- C15. A lookup of the cache entry `(k, wptr)` tests the owner `wptr.lock()`
returns.  When that owner refers to an object (its `get()` is not null; for a
control block that manages a non-null pointer this is the same as being
populated) and a `Node` lives there, the lookup writes "Cache node k alive: "
with the node's value; when it does not, the lookup writes "Cache node k
expired"; either way the heap is otherwise left as it was.  Constructing a weak
observer to store in the cache leaves the use count as it is.  In `main`,
whichever way the cache is traversed: `nodes[0]` and `nodes[1]` have use count
1 before caching (line 72), after caching (line 83) and after the loop (line
86); the loop writes "Cache node 1 alive: 4" and "Cache node 2 alive: 5", once
each, and no "expired" line. -/
theorem cache_lookup_reports (h : Heap) (k : Int) (wptr : WeakObserver) :
    (∀ n, (wptr.lock h).2.get ≠ nullptr → h.mem.objects (wptr.lock h).2.get = some n →
      cacheLookup h k wptr =
        some (Heap.mk (Mem.mk h.mem.objects (h.mem.out ++
          ["Cache node " ++ toString k ++ " alive: " ++ toString n.value ++ "\n"]))
          h.blocks h.destroyed)) ∧
    ((wptr.lock h).2.get = nullptr →
      cacheLookup h k wptr =
        some (Heap.mk (Mem.mk h.mem.objects (h.mem.out ++
          ["Cache node " ++ toString k ++ " expired\n"])) h.blocks h.destroyed)) ∧
    (∀ cb b, wptr.controlBlock = some cb → h.blocks cb = some b →
      b.managedPointer ≠ nullptr →
      ((wptr.lock h).2.get ≠ nullptr ↔ (wptr.lock h).2.populated = true) ∧
      ((wptr.lock h).2.get ≠ nullptr ↔ 0 < b.strongCount)) ∧
    (∀ s : SharedOwner, s.useCount (WeakObserver.construct s h).1 = s.useCount h) ∧
    (∀ reversed,
      (fullMainThrough reversed 72).map (fun f =>
          f.shared.nodes.map (fun s => s.useCount f.heap)) = some [1, 1] ∧
      (fullMainThrough reversed 83).map (fun f =>
          (f.shared.nodes.map (fun s => s.useCount f.heap), f.cache)) =
        some ([1, 1], [(1, { controlBlock := some 4 }), (2, { controlBlock := some 5 })]) ∧
      (fullMainThrough reversed 86).map (fun f =>
          (f.shared.nodes.map (fun s => s.useCount f.heap), f.heap.destroyed)) =
        some ([1, 1], [101, 103]) ∧
      (fullMainThrough reversed 86).map (fun f =>
          (f.heap.mem.out.count "Cache node 1 alive: 4\n",
           f.heap.mem.out.count "Cache node 2 alive: 5\n",
           f.heap.mem.out.count "Cache node 1 expired\n",
           f.heap.mem.out.count "Cache node 2 expired\n")) = some (1, 1, 0, 0)) := by
  have hmem := (lock_mem h wptr).1
  refine ⟨?_, ?_, ?_, ?_, ?_⟩
  · intro n hget hobj
    have := lock_reset_restore h wptr (Mem.mk h.mem.objects (h.mem.out ++
      ["Cache node " ++ toString k ++ " alive: " ++ toString n.value ++ "\n"]))
    simp only [cacheLookup, hget, ne_eq, not_false_eq_true, if_true, hmem, hobj]
    exact congrArg some this
  · intro hget
    have := lock_reset_restore h wptr (Mem.mk h.mem.objects (h.mem.out ++
      ["Cache node " ++ toString k ++ " expired\n"]))
    simp only [cacheLookup, hget, ne_eq, not_true_eq_false, if_false, hmem]
    exact congrArg some this
  · intro cb b hw hb hp
    have hp' : ¬ b.managedPointer = 0 := hp
    by_cases hn : 0 < b.strongCount
    · simp [WeakObserver.lock, hw, hb, hn, SharedOwner.get, SharedOwner.populated, hp']
    · simp [WeakObserver.lock, hw, hb, hn, SharedOwner.get, SharedOwner.populated,
        SharedOwner.empty]
  · intro s
    cases hs : s.controlBlock with
    | none => simp [WeakObserver.construct, hs]
    | some cb =>
      cases hb : h.blocks cb with
      | none => simp [WeakObserver.construct, hs, hb]
      | some b => simp [WeakObserver.construct, SharedOwner.useCount, hs, hb]
  · intro reversed
    cases reversed <;> exact ⟨by decide, by decide, by decide, by decide⟩

/-- The observer of `Node` 4 is looked up under key 1 while an owner exists: the
lookup writes "Cache node 1 alive: 4" and leaves the use count at 1. -/
theorem cache_lookup_reports_witness :
    (cacheLookup (makeShared Frame.start.heap 4 104 4).1 1 { controlBlock := some 4 }).map
        (fun h => (h.mem.out,
          SharedOwner.useCount { controlBlock := some 4, rawPointer := 104 } h)) =
      some (["Node 4 created\n", "Cache node 1 alive: 4\n"], 1) :=
  ((congrArg (Option.map (fun h => (h.mem.out,
      SharedOwner.useCount { controlBlock := some 4, rawPointer := 104 } h)))
    ((cache_lookup_reports (makeShared Frame.start.heap 4 104 4).1 1
      { controlBlock := some 4 }).1 { value := 4 } (by decide) (by decide))).trans (by decide))

end SmartPointers

namespace Constexpr

/-! ## Arithmetic of `int`: lemmas -/

/-- A value of `int` is its own representative. -/
theorem wrapInt_eq_self {x : Int} (h1 : INT_MIN ≤ x) (h2 : x ≤ INT_MAX) : wrapInt x = x := by
  unfold wrapInt
  unfold INT_MIN at h1
  unfold INT_MAX at h2
  omega

/-- The representative is a value of `int`. -/
theorem wrapInt_range (x : Int) : INT_MIN ≤ wrapInt x ∧ wrapInt x ≤ INT_MAX := by
  unfold wrapInt INT_MIN INT_MAX
  omega

/-- The representative is congruent to the number it represents. -/
theorem wrapInt_modEq (x : Int) : wrapInt x ≡ x [ZMOD 4294967296] := by
  unfold wrapInt Int.ModEq
  omega

/-- Congruent numbers have the same representative. -/
theorem wrapInt_congr {x y : Int} (h : x ≡ y [ZMOD 4294967296]) : wrapInt x = wrapInt y := by
  unfold Int.ModEq at h
  unfold wrapInt
  omega

/-- A wrapped right factor can be unwrapped. -/
theorem wrapInt_mul_wrapInt (a b : Int) : wrapInt (a * wrapInt b) = wrapInt (a * b) :=
  wrapInt_congr ((wrapInt_modEq b).mul_left a)

/-- A wrapped left factor can be unwrapped. -/
theorem wrapInt_wrapInt_mul (a b : Int) : wrapInt (wrapInt a * b) = wrapInt (a * b) :=
  wrapInt_congr ((wrapInt_modEq a).mul_right b)

/-- Wrapped summands can be unwrapped. -/
theorem wrapInt_add_wrapInt (a b : Int) : wrapInt (wrapInt a + wrapInt b) = wrapInt (a + b) :=
  wrapInt_congr ((wrapInt_modEq a).add (wrapInt_modEq b))

/-- With enough depth, `factorial_recursive` returns the factorial modulo 2^32. -/
theorem factorial_recursive_nat (k : Nat) (hk : (k : Int) ≤ INT_MAX) :
    ∀ fuel, k ≤ fuel →
      factorial_recursive (fuel + 1) (k : Int) = some (wrapInt (Nat.factorial k : Nat)) := by
  induction k with
  | zero =>
    intro fuel _
    simp [factorial_recursive, wrapInt]
  | succ k ih =>
    intro fuel hf
    by_cases h1 : k = 0
    · subst h1
      simp [factorial_recursive, wrapInt]
    · obtain ⟨f', rfl⟩ : ∃ f', fuel = f' + 1 := ⟨fuel - 1, by omega⟩
      have hk' : (k : Int) ≤ INT_MAX := by
        have : ((k + 1 : Nat) : Int) = (k : Int) + 1 := by push_cast; rfl
        omega
      have hnot : ¬ (((k + 1 : Nat) : Int) ≤ 1) := by
        push_cast; omega
      have hpred : wrapInt (((k + 1 : Nat) : Int) - 1) = (k : Int) := by
        have : ((k + 1 : Nat) : Int) - 1 = (k : Int) := by push_cast; omega
        rw [this]
        apply wrapInt_eq_self _ hk'
        unfold INT_MIN; omega
      rw [factorial_recursive]
      simp only [hnot, if_false, hpred]
      rw [ih hk' f' (by omega)]
      simp only [Option.map_some', Option.some.injEq]
      rw [wrapInt_mul_wrapInt, Nat.factorial_succ]
      push_cast
      rfl

/-- With enough depth, `factorial_recursive` returns the factorial of its
argument (of 0 for a negative argument) modulo 2^32. -/
theorem factorial_recursive_int (n : Int) (hmax : n ≤ INT_MAX) (fuel : Nat)
    (hf : n.toNat ≤ fuel) :
    factorial_recursive (fuel + 1) n = some (wrapInt (Nat.factorial n.toNat : Nat)) := by
  by_cases h0 : 0 ≤ n
  · have hcast : ((n.toNat : Nat) : Int) = n := Int.toNat_of_nonneg h0
    have := factorial_recursive_nat n.toNat (by rw [hcast]; exact hmax) fuel hf
    rw [hcast] at this
    exact this
  · have hz : n.toNat = 0 := by omega
    have hle : n ≤ 1 := by omega
    rw [hz, factorial_recursive]
    simp [hle, wrapInt]

/-- The loop of `factorial_iter` for a bound below `INT_MAX`, entered with
`result` the factorial of `i - 1` modulo 2^32, returns the factorial of the
bound modulo 2^32. -/
theorem factorial_iter_loop_nat (n : Nat) (hn : (n : Int) < INT_MAX) :
    ∀ (d i : Nat), 2 ≤ i → i + d = n + 1 → ∀ fuel, d ≤ fuel →
      factorial_iter_loop (fuel + 1) (n : Int) (i : Int)
          (wrapInt (Nat.factorial (i - 1) : Nat)) =
        some (wrapInt (Nat.factorial n : Nat)) := by
  intro d
  induction d with
  | zero =>
    intro i _ hid fuel _
    have hi : i - 1 = n := by omega
    have hnot : ¬ ((i : Int) ≤ (n : Int)) := by omega
    rw [factorial_iter_loop]
    simp only [hnot, if_false, hi]
  | succ d ih =>
    intro i h2 hid fuel hf
    obtain ⟨f', rfl⟩ : ∃ f', fuel = f' + 1 := ⟨fuel - 1, by omega⟩
    have hle : (i : Int) ≤ (n : Int) := by omega
    have hnext : wrapInt ((i : Int) + 1) = ((i + 1 : Nat) : Int) := by
      push_cast
      apply wrapInt_eq_self
      · unfold INT_MIN; omega
      · unfold INT_MAX at hn ⊢; omega
    have hres : wrapInt (wrapInt (Nat.factorial (i - 1) : Nat) * (i : Int)) =
        wrapInt (Nat.factorial (i + 1 - 1) : Nat) := by
      rw [wrapInt_wrapInt_mul]
      have : Nat.factorial (i + 1 - 1) = i * Nat.factorial (i - 1) := by
        rw [Nat.add_sub_cancel]
        exact (Nat.mul_factorial_pred (by omega)).symm
      rw [this]
      push_cast
      rw [mul_comm]
    rw [factorial_iter_loop]
    simp only [hle, if_true, hnext, hres]
    exact ih (i + 1) (by omega) (by omega) f' (by omega)

/-- With enough iterations, `factorial_iter` of an argument below `INT_MAX`
returns the factorial of its argument (of 0 for a negative argument) modulo
2^32. -/
theorem factorial_iter_int (n : Int) (hmax : n < INT_MAX) (fuel : Nat)
    (hf : n.toNat ≤ fuel) :
    factorial_iter (fuel + 1) n = some (wrapInt (Nat.factorial n.toNat : Nat)) := by
  by_cases h2 : 2 ≤ n
  · have hcast : ((n.toNat : Nat) : Int) = n := Int.toNat_of_nonneg (by omega)
    have := factorial_iter_loop_nat n.toNat (by rw [hcast]; exact hmax) (n.toNat - 1) 2
      (le_refl 2) (by omega) fuel (by omega)
    rw [hcast] at this
    simpa [factorial_iter, wrapInt] using this
  · have hnot : ¬ ((2 : Int) ≤ n) := h2
    have hfac : Nat.factorial n.toNat = 1 := by
      have : n.toNat = 0 ∨ n.toNat = 1 := by omega
      rcases this with h | h <;> rw [h] <;> rfl
    rw [hfac]
    simp [factorial_iter, factorial_iter_loop, hnot, wrapInt]

/-- The loop of `factorial_iter` with bound `INT_MAX` never ends: its condition
holds for every value of `int`. -/
theorem factorial_iter_loop_INT_MAX :
    ∀ (fuel : Nat) (i result : Int), i ≤ INT_MAX →
      factorial_iter_loop fuel INT_MAX i result = none := by
  intro fuel
  induction fuel with
  | zero => intro i result _; rfl
  | succ fuel ih =>
    intro i result hi
    rw [factorial_iter_loop]
    simp only [hi, if_true]
    exact ih _ _ (wrapInt_range _).2

/-! ## Theorems on constexpr.cpp -/

/-- C16. For every `int` argument `n`, `factorial_recursive` returns once the
recursion may go `n` deep: it returns the factorial of `n` (of 0 when `n` is
negative) modulo 2^32, which is the factorial of `n` itself for `0 ≤ n ≤ 12`,
and `1` for every `n ≤ 1`; `factorial_recursive(5)` is 120. -/
theorem factorial_recursive_correct (n : Int) (hmax : n ≤ INT_MAX) (fuel : Nat)
    (hf : n.toNat ≤ fuel) :
    factorial_recursive (fuel + 1) n = some (wrapInt (Nat.factorial n.toNat : Nat)) ∧
    (0 ≤ n → n ≤ 12 →
      factorial_recursive (fuel + 1) n = some ((Nat.factorial n.toNat : Nat) : Int)) ∧
    (n ≤ 1 → factorial_recursive (fuel + 1) n = some 1) ∧
    factorial_recursive 6 5 = some 120 := by
  have hmain := factorial_recursive_int n hmax fuel hf
  refine ⟨hmain, ?_, ?_, by decide⟩
  · intro h0 h12
    rw [hmain]
    have hk : n.toNat ≤ 12 := by omega
    have hfac : Nat.factorial n.toNat ≤ 479001600 := by
      have := Nat.factorial_le hk
      have h12f : Nat.factorial 12 = 479001600 := by decide
      omega
    rw [wrapInt_eq_self]
    · unfold INT_MIN; omega
    · unfold INT_MAX; omega
  · intro h1
    rw [factorial_recursive]
    simp [h1]

/-- The call `factorial_recursive(12)` with recursion depth 13. -/
theorem factorial_recursive_correct_witness :
    factorial_recursive (12 + 1) 12 = some ((Nat.factorial (12 : Int).toNat : Nat) : Int) :=
  (factorial_recursive_correct 12 (by decide) 12 (by decide)).2.1 (by decide) (by decide)

/-- C17, as amended. For every `int` value `v` other than `INT_MIN`,
`id_or_abs(v)` is the absolute value of `v`: it is not negative, it is `v` or
`-v`, and it is an `int` value; for every `unsigned int` value it is `v`
itself; `id_or_abs(-7)` is 7 and `id_or_abs(9u)` is 9. -/
theorem id_or_abs_correct (v : Int) (hmin : INT_MIN < v) (hmax : v ≤ INT_MAX) :
    id_or_abs IntegerType.int v = |v| ∧
    0 ≤ id_or_abs IntegerType.int v ∧
    (id_or_abs IntegerType.int v = v ∨ id_or_abs IntegerType.int v = -v) ∧
    IntegerType.int.Holds (id_or_abs IntegerType.int v) ∧
    (∀ u, IntegerType.unsigned_int.Holds u → id_or_abs IntegerType.unsigned_int u = u) ∧
    id_or_abs IntegerType.int (-7) = 7 ∧
    id_or_abs IntegerType.unsigned_int 9 = 9 := by
  unfold INT_MIN at hmin
  unfold INT_MAX at hmax
  have hval : id_or_abs IntegerType.int v = |v| := by
    by_cases hneg : v < 0
    · have hw : wrapInt (-v) = -v := by
        apply wrapInt_eq_self
        · unfold INT_MIN; omega
        · unfold INT_MAX; omega
      simp [id_or_abs, is_signed_v, IntegerType.wrap, hneg, hw, abs_of_neg hneg]
    · simp [id_or_abs, is_signed_v, hneg, abs_of_nonneg (not_lt.mp hneg)]
  refine ⟨hval, ?_, ?_, ?_, ?_, by decide, by decide⟩
  · rw [hval]; exact abs_nonneg v
  · rw [hval]
    rcases abs_choice v with h | h
    · exact Or.inl h
    · exact Or.inr h
  · rw [hval]
    unfold IntegerType.Holds INT_MIN INT_MAX
    constructor
    · have := abs_nonneg v
      omega
    · rcases abs_choice v with h | h <;> rw [h] <;> omega
  · intro u _
    simp [id_or_abs, is_signed_v]

/-- The call `id_or_abs(-7)` of the `static_assert` on line 47. -/
theorem id_or_abs_correct_witness :
    id_or_abs IntegerType.int (-7) = |(-7 : Int)| ∧ 0 ≤ id_or_abs IntegerType.int (-7) :=
  ⟨(id_or_abs_correct (-7) (by decide) (by decide)).1,
   (id_or_abs_correct (-7) (by decide) (by decide)).2.1⟩

/-- C17, as stated, fails at `INT_MIN`: there `-v` is `INT_MIN` again, so the
result is negative and is not the absolute value. -/
theorem id_or_abs_INT_MIN_negative :
    INT_MIN ≤ INT_MIN ∧ INT_MIN ≤ INT_MAX ∧
    id_or_abs IntegerType.int INT_MIN = INT_MIN ∧
    id_or_abs IntegerType.int INT_MIN < 0 ∧
    id_or_abs IntegerType.int INT_MIN ≠ |INT_MIN| := by
  refine ⟨by decide, by decide, by decide, by decide, ?_⟩
  have h1 : id_or_abs IntegerType.int INT_MIN = INT_MIN := by decide
  rw [h1]
  have h2 : INT_MIN < 0 := by decide
  rw [abs_of_neg h2]
  decide

/-- C18. `Vec2::dot` is the dot product in `int` arithmetic: for all `a` and `b`
it is `a.x*b.x + a.y*b.y` modulo 2^32, hence that number itself whenever it is
an `int` value, and `a.dot(b)` equals `b.dot(a)`; `Vec2{2,3}.dot(Vec2{4,1})` is
11. -/
theorem Vec2_dot_correct (a b : Vec2) :
    a.dot b = wrapInt (a.x * b.x + a.y * b.y) ∧
    (INT_MIN ≤ a.x * b.x + a.y * b.y → a.x * b.x + a.y * b.y ≤ INT_MAX →
      a.dot b = a.x * b.x + a.y * b.y) ∧
    a.dot b = b.dot a ∧
    Vec2.dot { x := 2, y := 3 } { x := 4, y := 1 } = 11 := by
  have hdot : ∀ c d : Vec2, c.dot d = wrapInt (c.x * d.x + c.y * d.y) := by
    intro c d
    unfold Vec2.dot
    exact wrapInt_add_wrapInt _ _
  refine ⟨hdot a b, ?_, ?_, by decide⟩
  · intro h1 h2
    rw [hdot, wrapInt_eq_self h1 h2]
  · rw [hdot, hdot, mul_comm a.x b.x, mul_comm a.y b.y]

/-- The vectors `A` and `B` of lines 33 and 34, in both orders. -/
theorem Vec2_dot_correct_witness :
    Vec2.dot { x := 2, y := 3 } { x := 4, y := 1 } = 2 * 4 + 3 * 1 ∧
    Vec2.dot { x := 2, y := 3 } { x := 4, y := 1 } =
      Vec2.dot { x := 4, y := 1 } { x := 2, y := 3 } :=
  ⟨(Vec2_dot_correct { x := 2, y := 3 } { x := 4, y := 1 }).2.1 (by decide) (by decide),
   (Vec2_dot_correct { x := 2, y := 3 } { x := 4, y := 1 }).2.2.1⟩

/-- C20, as amended. For every `int` argument `n` below `INT_MAX`, once `n`
iterations and `n` levels of recursion are allowed, `factorial_iter(n)` and
`factorial_recursive(n)` return the same value, the factorial of `n` (of 0 when
`n` is negative) modulo 2^32; for `n ≤ 1` both return 1. -/
theorem factorial_iter_eq_recursive (n : Int) (hmax : n < INT_MAX) (fuel : Nat)
    (hf : n.toNat ≤ fuel) :
    factorial_iter (fuel + 1) n = factorial_recursive (fuel + 1) n ∧
    factorial_iter (fuel + 1) n = some (wrapInt (Nat.factorial n.toNat : Nat)) ∧
    (n ≤ 1 → factorial_iter (fuel + 1) n = some 1 ∧
      factorial_recursive (fuel + 1) n = some 1) := by
  have hi := factorial_iter_int n hmax fuel hf
  have hr := factorial_recursive_int n (le_of_lt hmax) fuel hf
  refine ⟨by rw [hi, hr], hi, ?_⟩
  intro h1
  have hnot : ¬ ((2 : Int) ≤ n) := by omega
  constructor
  · simp [factorial_iter, factorial_iter_loop, hnot]
  · rw [factorial_recursive]
    simp [h1]

/-- The arguments 13, where the product no longer fits an `int`, and -3. -/
theorem factorial_iter_eq_recursive_witness :
    factorial_iter (13 + 1) 13 = factorial_recursive (13 + 1) 13 ∧
    factorial_iter (0 + 1) (-3) = some 1 :=
  ⟨(factorial_iter_eq_recursive 13 (by decide) 13 (by decide)).1,
   ((factorial_iter_eq_recursive (-3) (by decide) 0 (by decide)).2.2 (by decide)).1⟩

/-- C20, as stated, fails at `INT_MAX`: `factorial_recursive` returns a value,
while the loop of `factorial_iter` never ends, however many iterations are
allowed, because `i <= n` holds for every `int` value `i`. -/
theorem factorial_iter_INT_MAX_diverges :
    (∀ fuel, factorial_iter fuel INT_MAX = none) ∧
    (∃ r, factorial_recursive (INT_MAX.toNat + 1) INT_MAX = some r) :=
  ⟨fun fuel => factorial_iter_loop_INT_MAX fuel 2 1 (by decide),
   ⟨_, factorial_recursive_int INT_MAX (le_refl _) INT_MAX.toNat (le_refl _)⟩⟩

end Constexpr

namespace Variadic

open Constexpr

/-! ## Folds of variadic_functions.cpp: lemmas -/

/-- A wrapped right summand can be unwrapped. -/
theorem wrapInt_add_right (a y : Int) : wrapInt (a + wrapInt y) = wrapInt (a + y) :=
  wrapInt_congr ((wrapInt_modEq y).add_left a)

/-- A wrapped left summand can be unwrapped. -/
theorem wrapInt_add_left (a y : Int) : wrapInt (wrapInt a + y) = wrapInt (a + y) :=
  wrapInt_congr ((wrapInt_modEq a).add_right y)

/-- With at least two arguments `sum` returns their total modulo 2^32. -/
theorem sum_cons_cons (rest : List Int) :
    ∀ a b : Int, sum (a :: b :: rest) = some (wrapInt (a + (b :: rest).sum)) := by
  induction rest with
  | nil =>
    intro a b
    simp [sum]
  | cons c r ih =>
    intro a b
    rw [sum, ih b c]
    simp only [Option.map_some', Option.some.injEq]
    rw [wrapInt_add_right]
    simp [List.sum_cons]

/-- The left fold started from a wrapped value returns the total modulo 2^32. -/
theorem foldl_wrapInt (rest : List Int) :
    ∀ acc : Int, rest.foldl (fun acc x => wrapInt (acc + x)) (wrapInt acc) =
      wrapInt (acc + rest.sum) := by
  induction rest with
  | nil => intro acc; simp
  | cons x r ih =>
    intro acc
    simp only [List.foldl_cons, List.sum_cons]
    rw [wrapInt_add_left, ih (acc + x), add_assoc]

/-- With at least two arguments the left fold returns their total modulo 2^32. -/
theorem leftFoldSum_cons_cons (a b : Int) (rest : List Int) :
    leftFoldSum (a :: b :: rest) = some (wrapInt (a + (b :: rest).sum)) := by
  simp only [leftFoldSum, List.foldl_cons, List.sum_cons, Option.some.injEq]
  rw [foldl_wrapInt, add_assoc]

/-- The function `product` returns the product of its arguments modulo 2^32. -/
theorem product_eq_wrapInt_prod (args : List Int) : product args = wrapInt args.prod := by
  induction args with
  | nil => simp [product, wrapInt]
  | cons a rest ih =>
    rw [product, ih, wrapInt_mul_wrapInt, List.prod_cons]

/-! ## Theorems on variadic_functions.cpp -/

/-- C21. For every non-empty list of `int` arguments, `sum` returns what the
left fold `((a1 + a2) + a3) + ... + an` returns, in `int` arithmetic (the
source folds from the right, which gives the same value); for `int` values this
is the sum of all arguments modulo 2^32, and the sum itself whenever that is an
`int` value; `sum(1,2,3,4,5)` is 15. -/
theorem sum_is_left_fold (args : List Int) (hne : args ≠ []) :
    sum args = leftFoldSum args ∧
    (∃ v, sum args = some v) ∧
    ((∀ a ∈ args, INT_MIN ≤ a ∧ a ≤ INT_MAX) → sum args = some (wrapInt args.sum)) ∧
    ((∀ a ∈ args, INT_MIN ≤ a ∧ a ≤ INT_MAX) → INT_MIN ≤ args.sum → args.sum ≤ INT_MAX →
      sum args = some args.sum) ∧
    sum [1, 2, 3, 4, 5] = some 15 := by
  have hwrap : (∀ a ∈ args, INT_MIN ≤ a ∧ a ≤ INT_MAX) → sum args = some (wrapInt args.sum) := by
    intro hint
    cases args with
    | nil => exact absurd rfl hne
    | cons a rest =>
      cases rest with
      | nil =>
        have ha := hint a (List.mem_singleton.mpr rfl)
        simp [sum, wrapInt_eq_self ha.1 ha.2]
      | cons b r =>
        rw [sum_cons_cons]
        exact congrArg (fun t => some (wrapInt t)) List.sum_cons.symm
  refine ⟨?_, ?_, hwrap, ?_, by decide⟩
  · cases args with
    | nil => exact absurd rfl hne
    | cons a rest =>
      cases rest with
      | nil => simp [sum, leftFoldSum]
      | cons b r => rw [sum_cons_cons, leftFoldSum_cons_cons]
  · cases args with
    | nil => exact absurd rfl hne
    | cons a rest =>
      cases rest with
      | nil => exact ⟨a, by simp [sum]⟩
      | cons b r => exact ⟨_, sum_cons_cons r a b⟩
  · intro hint h1 h2
    rw [hwrap hint, wrapInt_eq_self h1 h2]

/-- The call `sum(1,2,3,4,5)` of line 180 and a call whose left fold passes
through an overflow. -/
theorem sum_is_left_fold_witness :
    sum [1, 2, 3, 4, 5] = leftFoldSum [1, 2, 3, 4, 5] ∧
    sum [2147483647, 1, -1] = leftFoldSum [2147483647, 1, -1] :=
  ⟨(sum_is_left_fold [1, 2, 3, 4, 5] (by decide)).1,
   (sum_is_left_fold [2147483647, 1, -1] (by decide)).1⟩

/-- C22. `product` is the right fold over `*` that starts from 1: for every
list of `int` arguments it returns the product of all of them modulo 2^32, the
product itself whenever that is an `int` value, and 1 for the empty pack;
`product(2,3,4)` is 24. -/
theorem product_is_right_fold (args : List Int) :
    product args = args.foldr (fun a r => wrapInt (a * r)) 1 ∧
    product args = wrapInt args.prod ∧
    (INT_MIN ≤ args.prod → args.prod ≤ INT_MAX → product args = args.prod) ∧
    product [] = 1 ∧
    product [2, 3, 4] = 24 := by
  refine ⟨?_, product_eq_wrapInt_prod args, ?_, rfl, by decide⟩
  · induction args with
    | nil => rfl
    | cons a rest ih => rw [product, ih, List.foldr_cons]
  · intro h1 h2
    rw [product_eq_wrapInt_prod, wrapInt_eq_self h1 h2]

/-- The call `product(2,3,4)` of line 181. -/
theorem product_is_right_fold_witness :
    product [2, 3, 4] = List.prod [2, 3, 4] :=
  (product_is_right_fold [2, 3, 4]).2.2.1 (by decide) (by decide)

end Variadic

namespace EnumOperations

/-! ## Bit masks of enum.cpp: lemmas -/

/-- On values of `uint8_t`, `b` is contained in `a | b`. -/
theorem lor_land_self (a b : Nat) : (a ||| b) &&& b = b := by
  apply Nat.eq_of_testBit_eq
  intro i
  simp only [Nat.testBit_and, Nat.testBit_or]
  cases a.testBit i <;> cases b.testBit i <;> rfl

/-- A value of `uint8_t` and its 8-bit complement share no bit and together
have all eight. -/
theorem land_lor_complement :
    ∀ n, n < 256 → n &&& (255 - n) = 0 ∧ n ||| (255 - n) = 255 := by
  set_option maxRecDepth 100000 in decide

/-- The conversion to `Permissions` of a value of `uint8_t` keeps it. -/
theorem toPermissions_of_lt {n : Nat} (h : n < 256) :
    toPermissions (n : Int) = { value := n } := by
  unfold toPermissions
  congr 1
  omega

/-- The value of `~a` is the 8-bit complement of the value of `a`. -/
theorem operatorNot_value {a : Permissions} (ha : a.Valid) :
    (operatorNot a).value = 255 - a.value := by
  unfold Permissions.Valid at ha
  have hnot : Int.not (toUnderlying a) = Int.negSucc a.value := rfl
  unfold operatorNot toPermissions
  rw [hnot, Int.negSucc_eq]
  simp only
  omega

/-- The value of `a | b` for values of `uint8_t`. -/
theorem operatorOr_value {a b : Permissions} (ha : a.Valid) (hb : b.Valid) :
    operatorOr a b = { value := a.value ||| b.value } :=
  toPermissions_of_lt (Nat.or_lt_two_pow (n := 8) ha hb)

/-- The value of `a & b` when `b` is a value of `uint8_t`. -/
theorem operatorAnd_value (a : Permissions) {b : Permissions} (hb : b.Valid) :
    operatorAnd a b = { value := a.value &&& b.value } :=
  toPermissions_of_lt (Nat.and_lt_two_pow (n := 8) a.value hb)

/-! ## Theorems on enum.cpp -/

/-- C23. For all `Permissions` values `a` and `b`, `(a | b) & b == b`, and
likewise `(a | b) & a == a`, so a mask built with `|` tests positive for each
of its members; `(READ | WRITE) & WRITE == WRITE`; `READ | WRITE | EXECUTE` is
`ALL`, whose underlying value is 7; and `demonstrateOperations` writes "User
permissions: 3" and "User has write permission". -/
theorem mask_contains_members (a b : Permissions) (ha : a.Valid) (hb : b.Valid) :
    operatorAnd (operatorOr a b) b = b ∧
    operatorAnd (operatorOr a b) a = a ∧
    (operatorOr a b).Valid ∧
    operatorAnd (operatorOr Permissions.READ Permissions.WRITE) Permissions.WRITE =
      Permissions.WRITE ∧
    operatorOr (operatorOr Permissions.READ Permissions.WRITE) Permissions.EXECUTE =
      Permissions.ALL ∧
    Permissions.ALL.value = 7 ∧
    demonstrateOperations = ["User permissions: 3\n", "User has write permission\n"] := by
  have hor := operatorOr_value ha hb
  refine ⟨?_, ?_, ?_, by decide, by decide, by decide, by decide⟩
  · rw [hor, operatorAnd_value _ hb]
    simp only [lor_land_self]
  · rw [hor, operatorAnd_value _ ha]
    simp only [Nat.lor_comm a.value b.value, lor_land_self]
  · rw [hor]
    exact Nat.or_lt_two_pow (n := 8) ha hb

/-- The masks 5 and 3: `(5 | 3) & 3` is 3. -/
theorem mask_contains_members_witness :
    operatorAnd (operatorOr { value := 5 } { value := 3 }) { value := 3 } = { value := 3 } :=
  (mask_contains_members { value := 5 } { value := 3 }
    (by unfold Permissions.Valid; decide) (by unfold Permissions.Valid; decide)).1

/-- C24. For every value `a` of `Permissions`, `~a` is the 8-bit complement:
its underlying value is `255 - a`, again a value of `uint8_t`, although the
complement is taken of the operand promoted to `int`; hence `~~a == a`,
`a & ~a` has underlying value 0 and `a | ~a` has underlying value 255. -/
theorem complement_is_8bit (a : Permissions) (ha : a.Valid) :
    (operatorNot a).value = 255 - a.value ∧
    (operatorNot a).Valid ∧
    operatorNot (operatorNot a) = a ∧
    (operatorAnd a (operatorNot a)).value = 0 ∧
    (operatorOr a (operatorNot a)).value = 255 := by
  have hv := operatorNot_value ha
  have hvalid : (operatorNot a).Valid := by
    unfold Permissions.Valid at ha ⊢
    omega
  have hbits := land_lor_complement a.value ha
  refine ⟨hv, hvalid, ?_, ?_, ?_⟩
  · have hvv := operatorNot_value hvalid
    have : (operatorNot (operatorNot a)).value = a.value := by
      unfold Permissions.Valid at ha
      omega
    cases a
    cases hn : operatorNot (operatorNot _)
    simp_all
  · rw [operatorAnd_value _ hvalid, hv]
    exact hbits.1
  · rw [operatorOr_value ha hvalid, hv]
    exact hbits.2

/-- The value `READ | WRITE`, 3: its complement has value 252. -/
theorem complement_is_8bit_witness :
    (operatorNot { value := 3 }).value = 255 - 3 ∧
    operatorNot (operatorNot { value := 3 }) = { value := 3 } :=
  ⟨(complement_is_8bit { value := 3 } (by unfold Permissions.Valid; decide)).1,
   (complement_is_8bit { value := 3 } (by unfold Permissions.Valid; decide)).2.2.1⟩

end EnumOperations

namespace InlineFunctions

/-! ## The cache of inline_functions.cpp: lemmas -/

/-- Two values that compare equal and are not the negative zero are the same
value. -/
theorem eq_of_eq_true {x y : Double} (h : Double.eq x y = true)
    (hx : x ≠ Double.negZero) (hy : y ≠ Double.negZero) : x = y := by
  obtain ⟨xs, xe, xf⟩ := x
  obtain ⟨ys, ye, yf⟩ := y
  simp only [Double.eq, Double.isNaN, Double.isZero, Bool.and_eq_true, Bool.or_eq_true,
    decide_eq_true_eq, beq_iff_eq] at h
  rcases h.2 with ⟨⟨hxe, hxf⟩, ⟨hye, hyf⟩⟩ | h
  · subst hxe hxf hye hyf
    cases xs
    · cases ys
      · rfl
      · exact absurd rfl hy
    · exact absurd rfl hx
  · exact h

/-- One call with an argument that is not the negative zero, from statics that
satisfy the invariant: the call returns `sin x` and the invariant holds again. -/
theorem cached_sin_step (sin : Double → Double) {s : Statics} {x : Double}
    (hinv : s.last_val = sin s.last_x) (hlast : s.last_x ≠ Double.negZero)
    (hx : x ≠ Double.negZero) :
    (cached_sin sin s x).1 = sin x ∧
    (cached_sin sin s x).2.last_val = sin (cached_sin sin s x).2.last_x ∧
    (cached_sin sin s x).2.last_x ≠ Double.negZero := by
  unfold cached_sin
  by_cases he : Double.eq x s.last_x = true
  · have hxl := eq_of_eq_true he hx hlast
    simp only [he, if_true]
    exact ⟨by rw [hinv, hxl], hinv, hlast⟩
  · simp only [he, if_false]
    exact ⟨rfl, rfl, hx⟩

/-- A sequence of calls without the negative zero, from statics that satisfy
the invariant. -/
theorem calls_spec (sin : Double → Double) (xs : List Double) :
    ∀ s : Statics, s.last_val = sin s.last_x → s.last_x ≠ Double.negZero →
      Double.negZero ∉ xs →
      (calls sin s xs).1 = xs.map sin ∧
      (calls sin s xs).2.last_val = sin (calls sin s xs).2.last_x := by
  induction xs with
  | nil =>
    intro s hinv _ _
    exact ⟨rfl, hinv⟩
  | cons x rest ih =>
    intro s hinv hlast hmem
    have hx : x ≠ Double.negZero := fun e => hmem (e ▸ List.mem_cons_self _ _)
    have hrest : Double.negZero ∉ rest := fun h => hmem (List.mem_cons_of_mem _ h)
    obtain ⟨h1, h2, h3⟩ := cached_sin_step sin hinv hlast hx
    obtain ⟨r1, r2⟩ := ih _ h2 h3 hrest
    simp only [calls, List.map_cons]
    exact ⟨by rw [h1, r1], r2⟩

/-! ## Theorems on inline_functions.cpp -/

/-- C25, as amended. Whatever function `std::sin` is, provided it maps `0.0`
to `0.0`: in every sequence of calls in which no argument is the negative
zero, each call `cached_sin(x)` returns `sin(x)`; the statics satisfy
`last_val = sin(last_x)` initially and after the calls, so a repeated argument
returns the value of the first call; the two calls `cached_sin(1.57)` of `main`
both return `sin(1.57)`. -/
theorem cached_sin_returns_sin (sin : Double → Double)
    (hsin0 : sin Double.zero = Double.zero) (xs : List Double)
    (hxs : Double.negZero ∉ xs) :
    Statics.init.last_val = sin Statics.init.last_x ∧
    (calls sin Statics.init xs).1 = xs.map sin ∧
    (calls sin Statics.init xs).2.last_val = sin (calls sin Statics.init xs).2.last_x ∧
    (calls sin Statics.init [Double.lit_1_57, Double.lit_1_57]).1 =
      [sin Double.lit_1_57, sin Double.lit_1_57] := by
  have hinit : Statics.init.last_val = sin Statics.init.last_x := hsin0.symm
  have hne : Statics.init.last_x ≠ Double.negZero := by decide
  obtain ⟨h1, h2⟩ := calls_spec sin xs Statics.init hinit hne hxs
  refine ⟨hinit, h1, h2, ?_⟩
  exact (calls_spec sin [Double.lit_1_57, Double.lit_1_57] Statics.init hinit hne
    (by decide)).1

/-- With the identity in the place of `std::sin`: the calls with `1.57`,
`1.57`, `0.0` and `1.57` return what that function returns. -/
theorem cached_sin_returns_sin_witness :
    (calls (fun d => d) Statics.init
        [Double.lit_1_57, Double.lit_1_57, Double.zero, Double.lit_1_57]).1 =
      [Double.lit_1_57, Double.lit_1_57, Double.zero, Double.lit_1_57].map (fun d => d) :=
  (cached_sin_returns_sin (fun d => d) rfl
    [Double.lit_1_57, Double.lit_1_57, Double.zero, Double.lit_1_57] (by decide)).2.1

/-- C25, as stated, fails for the argument `-0.0` in the first call: `-0.0 ==
0.0` holds, so the call returns the initial `last_val`, the positive zero,
whatever `std::sin` is; there is no function that maps `-0.0` to `-0.0`, as
`std::sin` does, whose value at `-0.0` that call returns. -/
theorem cached_sin_negative_zero :
    Double.eq Double.negZero Statics.init.last_x = true ∧
    Double.negZero ≠ Double.zero ∧
    (∀ sin : Double → Double,
      (cached_sin sin Statics.init Double.negZero).1 = Double.zero) ∧
    ¬ ∃ sin : Double → Double, sin Double.negZero = Double.negZero ∧
      (cached_sin sin Statics.init Double.negZero).1 = sin Double.negZero := by
  refine ⟨by decide, by decide, fun sin => rfl, ?_⟩
  rintro ⟨sin, hs, hc⟩
  have hz : (cached_sin sin Statics.init Double.negZero).1 = Double.zero := rfl
  rw [hz, hs] at hc
  exact absurd hc (by decide)

end InlineFunctions
